import Mathlib

/-
Shallow embedding of the link-preview service in src/link-preview/main.go
(feed.tiulp.in), together with theorems checking the specification's claims
against that code.

Modelling conventions:
* Go strings and byte slices are both `GoStr := List UInt8` (Go strings are
  byte strings); all concrete inputs used in theorems are ASCII, where the
  byte-level model agrees with Go exactly.
* Go stdlib functions whose behaviour the claims depend on (net/url parsing,
  the HTTP client scheme check) are translated from the stdlib sources;
  stdlib engines whose behaviour no claim depends on (the regexp matcher,
  html.UnescapeString) appear as universally quantified parameters, making
  the theorems quantify over every possible behaviour of those engines.
* Network I/O is an oracle function `GoStr → Except GoErr _`; wall-clock
  time, which the Go code never consults on any cache path, is an explicit
  (unused) parameter so that TTL claims can be stated.
-/

set_option autoImplicit false
set_option maxRecDepth 4000

namespace LinkPreview

deriving instance DecidableEq for Except

/-- Go strings and byte slices, modelled as lists of bytes. -/
abbrev GoStr := List UInt8

/-- UTF-8 encoding of one character, as in Go source literals. -/
def utf8Bytes (c : Char) : List UInt8 :=
  let n := c.toNat
  if n < 0x80 then [UInt8.ofNat n]
  else if n < 0x800 then
    [UInt8.ofNat (0xC0 ||| (n >>> 6)), UInt8.ofNat (0x80 ||| (n &&& 0x3F))]
  else if n < 0x10000 then
    [UInt8.ofNat (0xE0 ||| (n >>> 12)), UInt8.ofNat (0x80 ||| ((n >>> 6) &&& 0x3F)),
     UInt8.ofNat (0x80 ||| (n &&& 0x3F))]
  else
    [UInt8.ofNat (0xF0 ||| (n >>> 18)), UInt8.ofNat (0x80 ||| ((n >>> 12) &&& 0x3F)),
     UInt8.ofNat (0x80 ||| ((n >>> 6) &&& 0x3F)), UInt8.ofNat (0x80 ||| (n &&& 0x3F))]

/-- Embeds a Lean string literal as the UTF-8 bytes of the same Go literal. -/
def gs (s : String) : GoStr :=
  s.data.foldr (fun c acc => utf8Bytes c ++ acc) []

/-- Go `truncate` (main.go lines 256-261): `if len(s) > maxLen { return s[:maxLen] }; return s`.
Go `len` counts bytes and `s[:maxLen]` slices bytes, which is exactly
`List.length` and `List.take` on the byte list. -/
def truncate (s : GoStr) (maxLen : Nat) : GoStr :=
  if s.length > maxLen then s.take maxLen else s

/-- Go `hashURL` (main.go lines 129-132) is the hex MD5 digest of the URL.
The claims depend only on equal URLs mapping to equal cache keys (the spec
notes hash collisions are "assumed astronomically unlikely and not defended
against"), so the digest is modelled as the identity on the byte string. -/
def hashURL (u : GoStr) : GoStr := u

/-- Model of `hashicorp/golang-lru` `lru.Cache[string, α]`: an association
list ordered most-recently-used first, with a capacity. -/
structure LruCache (α : Type) where
  cap : Nat
  entries : List (GoStr × α)
deriving DecidableEq, Repr

/-- An empty LRU cache with the given capacity (`lru.New`). -/
def LruCache.empty (α : Type) (cap : Nat) : LruCache α := ⟨cap, []⟩

/-- `Cache.Get`: returns the value for the key, if present, and promotes the
entry to most-recently-used; the cache is unchanged on a miss. -/
def LruCache.get {α : Type} (c : LruCache α) (k : GoStr) : Option α × LruCache α :=
  match c.entries.lookup k with
  | some v => (some v, ⟨c.cap, (k, v) :: c.entries.filter (fun p => !(p.1 == k))⟩)
  | none => (none, c)

/-- `Cache.Add`: inserts (or replaces) the key as most-recently-used and
evicts the least-recently-used entries beyond the capacity. -/
def LruCache.add {α : Type} (c : LruCache α) (k : GoStr) (v : α) : LruCache α :=
  ⟨c.cap, ((k, v) :: c.entries.filter (fun p => !(p.1 == k))).take c.cap⟩

/-- Go errors, modelled structurally so that `Error()` strings can be
rendered faithfully where a claim needs them. -/
inductive GoErr where
  /-- an `errors.New` or constant-format error with the given message -/
  | msg (s : GoStr)
  /-- a `net/url` `*url.Error` wrapper: operation, URL, inner error -/
  | urlErr (op u : GoStr) (inner : GoErr)
  /-- `fmt.Errorf("HTTP %d", code)` from `fetchPreviewInternal` -/
  | httpStatus (code : Nat)
deriving DecidableEq, Repr

/-- Decimal rendering of a natural number, as Go `%d`. -/
def goItoa (n : Nat) : GoStr :=
  (Nat.toDigits 10 n).map (fun c => UInt8.ofNat c.toNat)

/-- The lower-case hexadecimal digits of `strconv`'s `lowerhex`. -/
def lowerHexDigit (v : UInt8) : UInt8 :=
  if v < 10 then 48 + v else 87 + v

/-- Go `strconv.Quote` restricted to byte strings: the double quote and
backslash are backslash-escaped, the named control escapes are used for
bytes 7-13, other control bytes become `\xHH` escapes with lower-case hex,
and printable ASCII bytes stand for themselves.  This agrees with Go on
ASCII data, which is the only data the theorems instantiate it with. -/
def goQuoteByte (c : UInt8) : GoStr :=
  if c == 34 then [92, 34]
  else if c == 92 then [92, 92]
  else if c == 7 then [92, 97]
  else if c == 8 then [92, 98]
  else if c == 12 then [92, 102]
  else if c == 10 then [92, 110]
  else if c == 13 then [92, 114]
  else if c == 9 then [92, 116]
  else if c == 11 then [92, 118]
  else if c < 32 || c == 127 then
    [92, 120, lowerHexDigit (c >>> 4), lowerHexDigit (c &&& 15)]
  else [c]

/-- Go `%q` of a byte string: surrounding quotes plus per-byte escaping. -/
def goQuote (s : GoStr) : GoStr :=
  [34] ++ s.foldr (fun c acc => goQuoteByte c ++ acc) [] ++ [34]

/-- The string returned by Go `err.Error()` for the modelled errors.
A `*url.Error` renders as `op " url ": inner` with the URL `%q`-quoted. -/
def errString : GoErr → GoStr
  | .msg s => s
  | .urlErr op u inner => op ++ gs " " ++ goQuote u ++ gs ": " ++ errString inner
  | .httpStatus code => gs "HTTP " ++ goItoa code

/-- Go `ImageCacheEntry` (main.go lines 47-50): cached image bytes plus the
content type.  Note that the struct stores no insertion timestamp. -/
structure ImageCacheEntry where
  data : GoStr
  contentType : GoStr
deriving DecidableEq, Repr

/-- An upstream response to a proxied image fetch: status line, content type
header and raw body bytes as delivered by `client.Do`. -/
structure ImgResp where
  statusCode : Nat
  contentType : GoStr
  body : GoStr
deriving DecidableEq, Repr

/-- What `handleProxyImage` writes back to its caller. -/
inductive ProxyResult where
  /-- an `http.Error(w, msg, code)` response -/
  | httpError (code : Nat) (message : GoStr)
  /-- image bytes served with a Content-Type header and a
  `Cache-Control: public, max-age=<maxAge>` header -/
  | served (contentType : GoStr) (maxAge : Nat) (body : GoStr)
deriving DecidableEq, Repr

/-- Result of one `handleProxyImage` request: the HTTP response written, the
image cache afterwards, and the increments applied to the
`metrics.ImageHits` / `metrics.ImageMisses` counters. -/
structure ProxyOutcome where
  result : ProxyResult
  cache : LruCache ImageCacheEntry
  imageHits : Nat
  imageMisses : Nat
deriving DecidableEq, Repr

/-- `imageCacheTTL` (main.go line 87) in seconds, as used for the
`Cache-Control: max-age` header value. -/
def imageCacheTTLSeconds : Nat := 300

/-- `maxImageCacheEntries` (main.go line 86). -/
def maxImageCacheEntries : Nat := 50

/-- Go `handleProxyImage` (main.go lines 402-458).  `net` is the network
oracle standing for `client.Do`; `now` is the wall-clock time (in seconds)
at which the request arrives — the Go handler never reads the clock, so the
parameter is unused, which is precisely what the TTL claims are about.
On a cache hit the stored entry is served; on a miss the image is fetched,
the body is read through `io.LimitReader(resp.Body, 2*1024*1024)`, a missing
content type defaults to `image/jpeg`, and only a payload with
`len(data) < 500*1024` is added to the cache. -/
def handleProxyImage (net : GoStr → Except GoErr ImgResp) (now : Nat)
    (cache : LruCache ImageCacheEntry) (imageURL : GoStr) : ProxyOutcome :=
  let _ := now
  if imageURL == [] then
    ⟨.httpError 400 (gs "Missing url parameter"), cache, 0, 0⟩
  else
    let cacheKey := gs "img_" ++ hashURL imageURL
    match cache.get cacheKey with
    | (some cached, cache1) =>
        ⟨.served cached.contentType imageCacheTTLSeconds cached.data, cache1, 1, 0⟩
    | (none, cache1) =>
      match net imageURL with
      | .error _ => ⟨.httpError 500 (gs "Failed to fetch image"), cache1, 0, 1⟩
      | .ok resp =>
        if resp.statusCode != 200 then
          ⟨.httpError resp.statusCode (gs "Image not found"), cache1, 0, 1⟩
        else
          let data := resp.body.take (2 * 1024 * 1024)
          let contentType :=
            if resp.contentType == [] then gs "image/jpeg" else resp.contentType
          let cache2 :=
            if data.length < 500 * 1024 then
              cache1.add cacheKey ⟨data, contentType⟩
            else cache1
          ⟨.served contentType imageCacheTTLSeconds data, cache2, 0, 1⟩

/-! ## Go `net/url` model

`fetchPreviewInternal` begins with `url.Parse(targetURL)` and `resolveURL`
parses both of its arguments, so the claims about invalid URLs and URL
resolution are decided by the stdlib parser.  The following definitions are
a byte-level translation of the parsing path of `net/url/url.go`. -/

/-- Go `stringContainsCTLByte`: reports whether the string has an ASCII
control byte. -/
def containsCTLByte (s : GoStr) : Bool :=
  s.any (fun b => b < 32 || b == 127)

/-- Go `ishex`. -/
def isHexByte (c : UInt8) : Bool :=
  (48 ≤ c && c ≤ 57) || (97 ≤ c && c ≤ 102) || (65 ≤ c && c ≤ 70)

/-- Go `unhex`. -/
def unhexByte (c : UInt8) : UInt8 :=
  if 48 ≤ c && c ≤ 57 then c - 48
  else if 97 ≤ c && c ≤ 102 then c - 97 + 10
  else if 65 ≤ c && c ≤ 70 then c - 65 + 10
  else 0

/-- The `encoding` enumeration of `net/url`. -/
inductive Encoding where
  | encodePath
  | encodePathSegment
  | encodeHost
  | encodeZone
  | encodeUserPassword
  | encodeQueryComponent
  | encodeFragment
deriving DecidableEq, Repr, BEq

/-- Go `shouldEscape(c, mode)`, translated case by case from `net/url`:
alphanumerics and `-_.~` are never escaped; hosts additionally allow the
sub-delimiters and `:[]<>"`; the bytes `$&+,/:;=?@` depend on the mode; and
fragments additionally allow `!()*`. -/
def shouldEscape (c : UInt8) (mode : Encoding) : Bool :=
  if (97 ≤ c && c ≤ 122) || (65 ≤ c && c ≤ 90) || (48 ≤ c && c ≤ 57) then false
  else if (mode == .encodeHost || mode == .encodeZone) &&
      (c == 33 || c == 36 || c == 38 || c == 39 || c == 40 || c == 41 || c == 42 ||
       c == 43 || c == 44 || c == 59 || c == 61 || c == 58 || c == 91 || c == 93 ||
       c == 60 || c == 62 || c == 34) then false
  else if c == 45 || c == 95 || c == 46 || c == 126 then false
  else if c == 36 || c == 38 || c == 43 || c == 44 || c == 47 || c == 58 ||
          c == 59 || c == 61 || c == 63 || c == 64 then
    match mode with
    | .encodePath => c == 63
    | .encodePathSegment => c == 47 || c == 59 || c == 44 || c == 63
    | .encodeUserPassword => c == 64 || c == 47 || c == 63 || c == 58
    | .encodeQueryComponent => true
    | .encodeFragment => false
    | _ => true
  else if mode == .encodeFragment && (c == 33 || c == 40 || c == 41 || c == 42) then
    false
  else true

/-- The error value of a malformed percent escape (`url.EscapeError`). -/
def escapeErr (s : GoStr) : GoErr :=
  .msg (gs "invalid URL escape " ++ goQuote s)

/-- The error value of an invalid raw host byte (`url.InvalidHostError`). -/
def invalidHostErr (s : GoStr) : GoErr :=
  .msg (gs "invalid character " ++ goQuote s ++ gs " in host name")

/-- Go `unescape(s, mode)`.  The Go function first validates every escape in
a scanning pass and then builds the decoded string; here the two passes are
fused, which returns the same first error and the same decoded bytes. -/
def unescapeGo (mode : Encoding) : GoStr → Except GoErr GoStr
  | [] => .ok []
  | c :: t =>
    if c == 37 then
      match t with
      | a :: b :: t2 =>
        if !(isHexByte a && isHexByte b) then
          .error (escapeErr ((c :: t).take 3))
        else if mode == .encodeHost && unhexByte a < 8 && !([c, a, b] == gs "%25") then
          .error (escapeErr [c, a, b])
        else if mode == .encodeZone &&
            (!([c, a, b] == gs "%25") &&
             ((unhexByte a <<< 4) ||| unhexByte b) != 32 &&
             shouldEscape ((unhexByte a <<< 4) ||| unhexByte b) .encodeHost) then
          .error (escapeErr [c, a, b])
        else
          (unescapeGo mode t2).map (((unhexByte a <<< 4) ||| unhexByte b) :: ·)
      | _ => .error (escapeErr ((c :: t).take 3))
    else if c == 43 then
      (unescapeGo mode t).map
        ((if mode == .encodeQueryComponent then 32 else 43) :: ·)
    else if (mode == .encodeHost || mode == .encodeZone) && c < 128 &&
        shouldEscape c mode then
      .error (invalidHostErr [c])
    else
      (unescapeGo mode t).map (c :: ·)

/-- The upper-case hexadecimal digit used by Go `escape`. -/
def upperHexDigit (v : UInt8) : UInt8 :=
  if v < 10 then 48 + v else 55 + v

/-- Go `escape(s, mode)`: spaces become `+` in query components, bytes that
`shouldEscape` become `%XX` with upper-case hex, others pass through. -/
def escapeGo (s : GoStr) (mode : Encoding) : GoStr :=
  s.foldr
    (fun c acc =>
      (if c == 32 && mode == .encodeQueryComponent then [43]
       else if shouldEscape c mode then
         [37, upperHexDigit (c >>> 4), upperHexDigit (c &&& 15)]
       else [c]) ++ acc) []

/-- Go `strings.Index(s, sub)` as an optional index. -/
def goIndexSub (s sub : GoStr) : Option Nat :=
  match s with
  | [] => if sub.isEmpty then some 0 else none
  | c :: t =>
    if sub.isPrefixOf (c :: t) then some 0
    else (goIndexSub t sub).map (· + 1)

/-- Go `strings.Contains(s, sub)`. -/
def goContains (s sub : GoStr) : Bool :=
  (goIndexSub s sub).isSome

/-- Go `strings.Cut(s, sep)`: the part before the first occurrence of
`sep`, the part after it, and whether `sep` occurred. -/
def goCut (s sep : GoStr) : GoStr × GoStr × Bool :=
  match goIndexSub s sep with
  | some i => (s.take i, s.drop (i + sep.length), true)
  | none => (s, [], false)

/-- Go `strings.LastIndexByte`, as an optional index. -/
def goLastIndexByteAux (b : UInt8) : GoStr → Nat → Option Nat
  | [], _ => none
  | c :: t, i =>
    match goLastIndexByteAux b t (i + 1) with
    | some j => some j
    | none => if c == b then some i else none

/-- Go `strings.LastIndexByte` / single-byte `strings.LastIndex`. -/
def goLastIndexByte (s : GoStr) (b : UInt8) : Option Nat :=
  goLastIndexByteAux b s 0

/-- Go `strings.ToLower` restricted to ASCII letters (scheme bytes, the only
use in the parse path, are validated ASCII letters and digits). -/
def goToLower (s : GoStr) : GoStr :=
  s.map (fun c => if 65 ≤ c && c ≤ 90 then c + 32 else c)

/-- The `*url.Userinfo` value: user name, password, and whether a password
was present. -/
structure Userinfo where
  username : GoStr
  password : GoStr
  passwordSet : Bool
deriving DecidableEq, Repr

/-- The Go `url.URL` struct fields used by the parse/resolve path
(`Opaque` is renamed `opaqueData`). -/
structure GoURL where
  scheme : GoStr
  opaqueData : GoStr
  user : Option Userinfo
  host : GoStr
  path : GoStr
  rawPath : GoStr
  omitHost : Bool
  forceQuery : Bool
  rawQuery : GoStr
  fragment : GoStr
  rawFragment : GoStr
deriving DecidableEq, Repr

/-- The zero `url.URL` value. -/
def GoURL.zero : GoURL :=
  ⟨[], [], none, [], [], [], false, false, [], [], []⟩

/-- Go `getScheme(rawURL)`: scans for a `:` ending a valid scheme prefix;
digits, `+`, `-`, `.` may not start the scheme; a leading `:` is the
"missing protocol scheme" error; any other byte means there is no scheme.
The scan walks the suffix starting at byte `i` (so the head of the suffix
argument is `rawURL[i]`). -/
def getSchemeAux (rawURL : GoStr) : GoStr → Nat → Except GoErr (GoStr × GoStr)
  | [], _ => .ok ([], rawURL)
  | c :: t, i =>
    if (97 ≤ c && c ≤ 122) || (65 ≤ c && c ≤ 90) then
      getSchemeAux rawURL t (i + 1)
    else if (48 ≤ c && c ≤ 57) || c == 43 || c == 45 || c == 46 then
      if i == 0 then .ok ([], rawURL) else getSchemeAux rawURL t (i + 1)
    else if c == 58 then
      if i == 0 then .error (.msg (gs "missing protocol scheme"))
      else .ok (rawURL.take i, rawURL.drop (i + 1))
    else .ok ([], rawURL)

/-- Go `validOptionalPort`. -/
def validOptionalPort (port : GoStr) : Bool :=
  match port with
  | [] => true
  | c :: t => c == 58 && t.all (fun b => 48 ≤ b && b ≤ 57)

/-- Go `validUserinfo`, byte for byte (every rune the Go version accepts is
ASCII, so the byte-level check agrees with the rune-level one). -/
def validUserinfo (s : GoStr) : Bool :=
  s.all (fun c =>
    (97 ≤ c && c ≤ 122) || (65 ≤ c && c ≤ 90) || (48 ≤ c && c ≤ 57) ||
    c == 45 || c == 46 || c == 95 || c == 58 || c == 126 || c == 33 ||
    c == 36 || c == 38 || c == 39 || c == 40 || c == 41 || c == 42 ||
    c == 43 || c == 44 || c == 59 || c == 61 || c == 37 || c == 64)

/-- Go `parseHost`: bracketed IPv6 hosts with optional `%25` zone, an
optional `:port` suffix that must be numeric, then `unescape` in host
mode. -/
def parseHost (host : GoStr) : Except GoErr GoStr :=
  if (gs "[").isPrefixOf host then
    match goLastIndexByte host 93 with
    | none => .error (.msg (gs "missing ']' in host"))
    | some i =>
      let colonPort := host.drop (i + 1)
      if !validOptionalPort colonPort then
        .error (.msg (gs "invalid port " ++ goQuote colonPort ++ gs " after host"))
      else
        match goIndexSub (host.take i) (gs "%25") with
        | some zone => do
          let host1 ← unescapeGo .encodeHost (host.take zone)
          let host2 ← unescapeGo .encodeZone ((host.take i).drop zone)
          let host3 ← unescapeGo .encodeHost (host.drop i)
          .ok (host1 ++ host2 ++ host3)
        | none => unescapeGo .encodeHost host
  else
    match goLastIndexByte host 58 with
    | some i =>
      let colonPort := host.drop i
      if !validOptionalPort colonPort then
        .error (.msg (gs "invalid port " ++ goQuote colonPort ++ gs " after host"))
      else unescapeGo .encodeHost host
    | none => unescapeGo .encodeHost host

/-- Go `parseAuthority`: splits at the last `@`, parses the host first, then
validates and unescapes the userinfo. -/
def parseAuthority (authority : GoStr) : Except GoErr (Option Userinfo × GoStr) :=
  match goLastIndexByte authority 64 with
  | none => (parseHost authority).map (fun h => (none, h))
  | some i => do
    let host ← parseHost (authority.drop (i + 1))
    let userinfo := authority.take i
    if !validUserinfo userinfo then
      .error (.msg (gs "net/url: invalid userinfo"))
    else if !goContains userinfo (gs ":") then do
      let uu ← unescapeGo .encodeUserPassword userinfo
      .ok (some ⟨uu, [], false⟩, host)
    else do
      let (username, rest, _) := goCut userinfo (gs ":")
      let un ← unescapeGo .encodeUserPassword username
      let pw ← unescapeGo .encodeUserPassword rest
      .ok (some ⟨un, pw, true⟩, host)

/-- Go `URL.setPath`: unescapes in path mode into `Path` and keeps the
original in `RawPath` only when re-escaping does not reproduce it. -/
def setPathGo (u : GoURL) (p : GoStr) : Except GoErr GoURL :=
  (unescapeGo .encodePath p).map (fun path =>
    if escapeGo path .encodePath == p then
      { u with path := path, rawPath := [] }
    else
      { u with path := path, rawPath := p })

/-- Go `URL.setFragment`, the fragment analogue of `setPath`. -/
def setFragmentGo (u : GoURL) (f : GoStr) : Except GoErr GoURL :=
  (unescapeGo .encodeFragment f).map (fun frag =>
    if escapeGo frag .encodeFragment == f then
      { u with fragment := frag, rawFragment := [] }
    else
      { u with fragment := frag, rawFragment := f })

/-- Go `parse(rawURL, viaRequest)`, the body of `url.Parse` after the
fragment has been cut off. -/
def urlParseInner (rawURL : GoStr) (viaRequest : Bool) : Except GoErr GoURL :=
  if containsCTLByte rawURL then
    .error (.msg (gs "net/url: invalid control character in URL"))
  else if rawURL == [] && viaRequest then
    .error (.msg (gs "empty url"))
  else if rawURL == gs "*" then
    .ok { GoURL.zero with path := gs "*" }
  else
    match getSchemeAux rawURL rawURL 0 with
    | .error e => .error e
    | .ok (scheme0, rest0) =>
      let scheme := goToLower scheme0
      let (rest, forceQuery, rawQuery) :=
        if (gs "?").isSuffixOf rest0 &&
            !goContains (rest0.take (rest0.length - 1)) (gs "?") then
          (rest0.take (rest0.length - 1), true, ([] : GoStr))
        else
          let (r, q, _) := goCut rest0 (gs "?")
          (r, false, q)
      let prefixSlash := (gs "/").isPrefixOf rest
      if !prefixSlash && scheme != [] then
        .ok { GoURL.zero with
                scheme := scheme, opaqueData := rest,
                forceQuery := forceQuery, rawQuery := rawQuery }
      else if !prefixSlash && viaRequest then
        .error (.msg (gs "invalid URI for request"))
      else if !prefixSlash && goContains (goCut rest (gs "/")).1 (gs ":") then
        .error (.msg (gs "first path segment in URL cannot contain colon"))
      else if (scheme != [] || (!viaRequest && !((gs "///").isPrefixOf rest))) &&
          (gs "//").isPrefixOf rest then
        let afterSlashes := rest.drop 2
        let (authority, rest2) :=
          match goIndexSub afterSlashes (gs "/") with
          | some i => (afterSlashes.take i, afterSlashes.drop i)
          | none => (afterSlashes, ([] : GoStr))
        match parseAuthority authority with
        | .error e => .error e
        | .ok (user, host) =>
          setPathGo
            { GoURL.zero with
                scheme := scheme, user := user, host := host,
                forceQuery := forceQuery, rawQuery := rawQuery } rest2
      else
        let omitHost := scheme != [] && (gs "/").isPrefixOf rest
        setPathGo
          { GoURL.zero with
              scheme := scheme, omitHost := omitHost,
              forceQuery := forceQuery, rawQuery := rawQuery } rest

/-- Go `url.Parse(rawURL)`: cuts the fragment, parses, and wraps any error
in a `*url.Error` with operation `parse`. -/
def urlParse (rawURL : GoStr) : Except GoErr GoURL :=
  let (u, frag, _) := goCut rawURL (gs "#")
  match urlParseInner u false with
  | .error err => .error (.urlErr (gs "parse") u err)
  | .ok url =>
    if frag == [] then .ok url
    else
      match setFragmentGo url frag with
      | .error err => .error (.urlErr (gs "parse") rawURL err)
      | .ok url2 => .ok url2

/-! ## Go `net/url` reference resolution and serialization

`resolveURL` (main.go lines 244-254) calls `u.ResolveReference(ref).String()`,
so the resolution algorithm and the serializer are translated as well. -/

/-- The segments of the repeated `strings.Cut(remaining, "/")` loop in Go
`resolvePath`: the string split at every slash. -/
def splitOnSlash : GoStr → List GoStr
  | [] => [[]]
  | c :: t =>
    if c == 47 then [] :: splitOnSlash t
    else
      match splitOnSlash t with
      | h :: r => (c :: h) :: r
      | [] => [[c]]

/-- One iteration of the Go `resolvePath` loop: the element, the builder
(which always carries its leading slash), and the `first` flag. -/
def resolvePathStep (elem dst : GoStr) (first : Bool) : GoStr × Bool :=
  if elem == gs "." then (dst, false)
  else if elem == gs ".." then
    let str := dst.drop 1
    match goLastIndexByte str 47 with
    | none => ([47], true)
    | some index => ([47] ++ str.take index, first)
  else
    ((if !first then dst ++ [47] else dst) ++ elem, false)

/-- The Go `resolvePath` loop over all segments, with the post-loop slash
append when the final segment is `.` or `..`. -/
def resolvePathSegs : List GoStr → GoStr → Bool → GoStr
  | [], dst, _ => dst
  | [elem], dst, first =>
    let (dst2, _) := resolvePathStep elem dst first
    if elem == gs "." || elem == gs ".." then dst2 ++ [47] else dst2
  | elem :: rest, dst, first =>
    let (dst2, first2) := resolvePathStep elem dst first
    resolvePathSegs rest dst2 first2

/-- Go `resolvePath(base, ref)`: RFC 3986 merge plus dot-segment removal. -/
def resolvePath (base ref : GoStr) : GoStr :=
  let full :=
    if ref == [] then base
    else if ref.head? != some 47 then
      (match goLastIndexByte base 47 with
       | some i => base.take (i + 1)
       | none => []) ++ ref
    else ref
  if full == [] then []
  else
    let dst := resolvePathSegs (splitOnSlash full) [47] true
    match dst with
    | a :: b :: r => if b == 47 then b :: r else a :: b :: r
    | _ => dst

/-- Go `validEncoded(s, mode)`. -/
def validEncoded (s : GoStr) (mode : Encoding) : Bool :=
  s.all (fun c =>
    if c == 33 || c == 36 || c == 38 || c == 39 || c == 40 || c == 41 ||
        c == 42 || c == 43 || c == 44 || c == 59 || c == 61 || c == 58 ||
        c == 64 || c == 91 || c == 93 || c == 37 then true
    else !shouldEscape c mode)

/-- Go `URL.EscapedPath`. -/
def escapedPath (u : GoURL) : GoStr :=
  if u.rawPath != [] && validEncoded u.rawPath .encodePath &&
      (match unescapeGo .encodePath u.rawPath with
       | .ok p => p == u.path
       | .error _ => false) then
    u.rawPath
  else if u.path == gs "*" then gs "*"
  else escapeGo u.path .encodePath

/-- Go `URL.EscapedFragment`. -/
def escapedFragment (u : GoURL) : GoStr :=
  if u.rawFragment != [] && validEncoded u.rawFragment .encodeFragment &&
      (match unescapeGo .encodeFragment u.rawFragment with
       | .ok f => f == u.fragment
       | .error _ => false) then
    u.rawFragment
  else escapeGo u.fragment .encodeFragment

/-- Go `Userinfo.String`. -/
def userinfoString (ui : Userinfo) : GoStr :=
  let s := escapeGo ui.username .encodeUserPassword
  if ui.passwordSet then s ++ [58] ++ escapeGo ui.password .encodeUserPassword
  else s

/-- Go `URL.ResolveReference(ref)`.  The `setPath` error is ignored in Go
(the provided path is always validly encoded); here the pre-`setPath` record
is kept in that impossible case. -/
def resolveReference (u ref : GoURL) : GoURL :=
  let url1 := if ref.scheme == [] then { ref with scheme := u.scheme } else ref
  if ref.scheme != [] || ref.host != [] || ref.user.isSome then
    match setPathGo url1 (resolvePath (escapedPath ref) []) with
    | .ok u2 => u2
    | .error _ => url1
  else if ref.opaqueData != [] then
    { url1 with user := none, host := [], path := [] }
  else
    let url2 :=
      if ref.path == [] && !ref.forceQuery && ref.rawQuery == [] then
        let u3 := { url1 with rawQuery := u.rawQuery }
        if ref.fragment == [] then
          { u3 with fragment := u.fragment, rawFragment := u.rawFragment }
        else u3
      else url1
    let url3 := { url2 with host := u.host, user := u.user }
    match setPathGo url3 (resolvePath (escapedPath u) (escapedPath ref)) with
    | .ok u4 => u4
    | .error _ => url3

/-- Go `URL.String()`. -/
def urlString (u : GoURL) : GoStr :=
  let querySuffix : GoStr :=
    if u.forceQuery || u.rawQuery != [] then [63] ++ u.rawQuery else []
  let fragSuffix : GoStr :=
    if u.fragment != [] then [35] ++ escapedFragment u else []
  let buf1 := if u.scheme != [] then u.scheme ++ [58] else []
  if u.opaqueData != [] then
    buf1 ++ u.opaqueData ++ querySuffix ++ fragSuffix
  else
    let buf2 :=
      if u.scheme != [] || u.host != [] || u.user.isSome then
        if u.omitHost && u.host == [] && u.user.isNone then buf1
        else
          let b1 :=
            if u.host != [] || u.path != [] || u.user.isSome then
              buf1 ++ gs "//"
            else buf1
          let b2 :=
            match u.user with
            | some ui => b1 ++ userinfoString ui ++ [64]
            | none => b1
          if u.host != [] then b2 ++ escapeGo u.host .encodeHost else b2
      else buf1
    let path := escapedPath u
    let buf3 :=
      if path != [] && path.head? != some 47 && u.host != [] then
        buf2 ++ [47]
      else buf2
    let buf4 :=
      if buf3 == [] && goContains (goCut path (gs "/")).1 (gs ":") then
        buf3 ++ gs "./"
      else buf3
    buf4 ++ path ++ querySuffix ++ fragSuffix

/-- Go `strings.Replace(s, old, new, 1)`: replaces the first occurrence of
`old` (an empty `old` inserts `new` at the start). -/
def goReplaceOnce (s old new : GoStr) : GoStr :=
  match goIndexSub s old with
  | some i => s.take i ++ new ++ s.drop (i + old.length)
  | none => s

/-- Go `net/http` `stripPassword(u)`: the re-serialized URL, with a set
password redacted to `***`. -/
def stripPassword (u : GoURL) : GoStr :=
  match u.user with
  | some ui =>
    if ui.passwordSet then
      goReplaceOnce (urlString u) (userinfoString ui ++ [64])
        (ui.username ++ gs ":***@")
    else urlString u
  | none => urlString u

/-- Go `resolveURL` (main.go lines 244-254): a reference starting with the
four bytes `http` is returned as is; otherwise both strings are parsed and
the reference is resolved against the base, falling back to the unchanged
reference when either parse fails. -/
def resolveURL (href base : GoStr) : GoStr :=
  if (gs "http").isPrefixOf href then href
  else
    match urlParse base with
    | .ok u =>
      match urlParse href with
      | .ok ref => urlString (resolveReference u ref)
      | .error _ => href
    | .error _ => href

/-- Whether a string is an absolute URL: Go `url.Parse` accepts it and the
parsed scheme is non-empty (`URL.IsAbs`), the specification's
"scheme-prefixed" notion. -/
def isAbsURL (s : GoStr) : Bool :=
  match urlParse s with
  | .ok u => u.scheme != []
  | .error _ => false

/-! ## Metadata extraction (`extractMetaTags`, main.go lines 134-242)

The fixed regular expressions compiled at main.go lines 52-59 are matched by
the Go `regexp` stdlib engine.  No claim depends on which strings those
regexes match, so the engine is a universally quantified parameter: each
field of `Engines` stands for one compiled pattern (returning the capture
groups), plus `html.UnescapeString`.  The repository functions built on top
of them are translated faithfully. -/

/-- The stdlib engines used by the extractor, as abstract functions:
`FindAllStringSubmatch` of the four meta-tag regexes (each match gives its
two capture groups), `FindStringSubmatch` group 1 of `titleRe` and
`faviconRe`, and `html.UnescapeString`. -/
structure Engines where
  findPropertyContent : GoStr → List (GoStr × GoStr)
  findContentProperty : GoStr → List (GoStr × GoStr)
  findNameContent : GoStr → List (GoStr × GoStr)
  findContentName : GoStr → List (GoStr × GoStr)
  findTitleTag : GoStr → Option GoStr
  findFaviconLink : GoStr → Option GoStr
  unescapeHTML : GoStr → GoStr

/-- A concrete `Engines` instance whose matchers never match and whose
unescaper is the identity, used to instantiate closed statements. -/
def engNone : Engines :=
  ⟨fun _ => [], fun _ => [], fun _ => [], fun _ => [], fun _ => none,
   fun _ => none, fun s => s⟩

/-- Go `strings.EqualFold` restricted to ASCII case folding (the property
names compared in `extractMetaFromBuffer` are ASCII). -/
def goEqualFold (a b : GoStr) : Bool :=
  a.length == b.length &&
  (a.zip b).all (fun p => goToLower [p.1] == goToLower [p.2])

/-- Go `strings.TrimSpace` restricted to ASCII white space. -/
def goTrimSpace (s : GoStr) : GoStr :=
  let ws : UInt8 → Bool := fun c =>
    c == 32 || c == 9 || c == 10 || c == 11 || c == 12 || c == 13
  (s.dropWhile ws).reverse.dropWhile ws |>.reverse

/-- Go `extractMetaFromBuffer` (main.go lines 208-242): tries the four
attribute-order permutations in order and returns the trimmed content of the
first match whose property/name capture equals the wanted property under
`EqualFold`. -/
def extractMetaFromBuffer (eng : Engines) (htmlStr property : GoStr) : GoStr :=
  match (eng.findPropertyContent htmlStr).find? (fun m => goEqualFold m.1 property) with
  | some m => goTrimSpace m.2
  | none =>
  match (eng.findContentProperty htmlStr).find? (fun m => goEqualFold m.2 property) with
  | some m => goTrimSpace m.1
  | none =>
  match (eng.findNameContent htmlStr).find? (fun m => goEqualFold m.1 property) with
  | some m => goTrimSpace m.2
  | none =>
  match (eng.findContentName htmlStr).find? (fun m => goEqualFold m.2 property) with
  | some m => goTrimSpace m.1
  | none => []

/-- The loop state of `extractMetaTags`: the five field values, their found
flags, the growing HTML buffer and the `bytesRead` counter. -/
structure MetaScanState where
  title : GoStr
  description : GoStr
  image : GoStr
  siteName : GoStr
  favicon : GoStr
  foundTitle : Bool
  foundDesc : Bool
  foundImage : Bool
  foundSite : Bool
  foundFavicon : Bool
  htmlBuffer : GoStr
  bytesRead : Nat
deriving Repr

/-- The initial `extractMetaTags` state. -/
def metaScanInit : MetaScanState :=
  ⟨[], [], [], [], [], false, false, false, false, false, [], 0⟩

/-- The early-exit condition `foundTitle && foundDesc && foundImage &&
foundSite && foundFavicon`. -/
def MetaScanState.allFound (st : MetaScanState) : Bool :=
  st.foundTitle && st.foundDesc && st.foundImage && st.foundSite && st.foundFavicon

/-- `maxScan` (main.go line 142), the hardcoded byte budget of the scanning
loop. -/
def maxScan : Nat := 50000

/-- One iteration of the `extractMetaTags` loop body (main.go lines
144-199): account the line, append it (plus a newline) to the buffer, and
run each of the five trigger/extract blocks. -/
def metaScanLine (eng : Engines) (st : MetaScanState) (line : GoStr) : MetaScanState :=
  let bytesRead := st.bytesRead + line.length
  let buf := st.htmlBuffer ++ line ++ [10]
  let tp : GoStr × Bool :=
    if !st.foundTitle &&
        (goContains line (gs "og:title") || goContains line (gs "twitter:title") ||
         goContains line (gs "<title")) then
      let t1 := extractMetaFromBuffer eng buf (gs "og:title")
      if t1 != [] then (t1, true)
      else
        let t2 := extractMetaFromBuffer eng buf (gs "twitter:title")
        if t2 != [] then (t2, true)
        else
          match eng.findTitleTag buf with
          | some m => (goTrimSpace m, true)
          | none => (st.title, st.foundTitle)
    else (st.title, st.foundTitle)
  let dp : GoStr × Bool :=
    if !st.foundDesc &&
        (goContains line (gs "og:description") ||
         goContains line (gs "twitter:description") ||
         goContains line (gs "name=\"description\"")) then
      let d1 := extractMetaFromBuffer eng buf (gs "og:description")
      if d1 != [] then (d1, true)
      else
        let d2 := extractMetaFromBuffer eng buf (gs "twitter:description")
        if d2 != [] then (d2, true)
        else
          let d3 := extractMetaFromBuffer eng buf (gs "description")
          if d3 != [] then (d3, true) else (st.description, st.foundDesc)
    else (st.description, st.foundDesc)
  let ip : GoStr × Bool :=
    if !st.foundImage &&
        (goContains line (gs "og:image") || goContains line (gs "twitter:image")) then
      let i1 := extractMetaFromBuffer eng buf (gs "og:image")
      if i1 != [] then (i1, true)
      else
        let i2 := extractMetaFromBuffer eng buf (gs "twitter:image")
        if i2 != [] then (i2, true) else (st.image, st.foundImage)
    else (st.image, st.foundImage)
  let sp : GoStr × Bool :=
    if !st.foundSite && goContains line (gs "og:site_name") then
      let s1 := extractMetaFromBuffer eng buf (gs "og:site_name")
      if s1 != [] then (s1, true) else (st.siteName, st.foundSite)
    else (st.siteName, st.foundSite)
  let fp : GoStr × Bool :=
    if !st.foundFavicon && goContains line (gs "icon") then
      match eng.findFaviconLink buf with
      | some m => (goTrimSpace m, true)
      | none => (st.favicon, st.foundFavicon)
    else (st.favicon, st.foundFavicon)
  ⟨tp.1, dp.1, ip.1, sp.1, fp.1, tp.2, dp.2, ip.2, sp.2, fp.2, buf, bytesRead⟩

/-- Go `bufio.dropCR`: drops a trailing carriage return, as `ScanLines`
does to every token. -/
def dropCR (data : GoStr) : GoStr :=
  if data.getLast? == some 13 then data.dropLast else data

/-- Outcome of one `scanner.Scan()` call on the remaining byte stream. -/
inductive ScanStep where
  /-- `Scan()` returned true with this token, leaving this rest -/
  | token (tok : GoStr) (rest : GoStr)
  /-- `Scan()` returned false at a clean end of input -/
  | eof
  /-- `Scan()` returned false with `ErrTooLong`: no newline occurs within
  the buffer limit and more input is pending -/
  | tooLong
deriving DecidableEq, Repr

/-- One `scanner.Scan()` step of a `bufio.Scanner` over the remaining byte
stream, with the `ScanLines` split function and
`scanner.Buffer(make([]byte, 4096), maxBytes)` (main.go lines 136-137).
The buffer grows from 4096 bytes up to `maxBytes`, so the scanner can look
for the newline only within the first `max maxBytes 4096` buffered bytes:
a newline-terminated line needs the line *and its newline* to fit that
window (a window-sized line followed by a newline already fails with
`ErrTooLong`), while a final unterminated line may fill the window exactly.
Tokens are returned with a trailing carriage return dropped. -/
def scanNext (maxBytes : Nat) (stream : GoStr) : ScanStep :=
  if stream == [] then .eof
  else
    let window := max maxBytes 4096
    match goIndexSub (stream.take window) (gs "\n") with
    | some i => .token (dropCR (stream.take i)) (stream.drop (i + 1))
    | none =>
      if stream.length ≤ window then .token (dropCR stream) []
      else .tooLong

/-- The `for scanner.Scan()` loop of `extractMetaTags` over the raw body
bytes: while `Scan()` produces a token the loop processes it and breaks
when all five fields are found or `bytesRead > maxScan` (main.go lines
200-202); when `Scan()` fails (end of input, or `ErrTooLong` for an
oversized line) the loop ends without consuming further bytes.  The `fuel`
argument only bounds the recursion for Lean: every produced token consumes
at least one byte of the stream, so a fuel exceeding the stream length is
never exhausted.  Returns the final state and the unconsumed bytes. -/
def metaScanLoopS (eng : Engines) (maxBytes : Nat) :
    Nat → GoStr → MetaScanState → MetaScanState × GoStr
  | 0, stream, st => (st, stream)
  | fuel + 1, stream, st =>
    match scanNext maxBytes stream with
    | .eof => (st, stream)
    | .tooLong => (st, stream)
    | .token line rest =>
      let st2 := metaScanLine eng st line
      if st2.allFound || st2.bytesRead > maxScan then (st2, rest)
      else metaScanLoopS eng maxBytes fuel rest st2

/-- Go `extractMetaTags(reader, maxBytes)` (main.go lines 135-206), reading
the response body bytes through the scanner. -/
def extractMetaTags (eng : Engines) (body : GoStr) (maxBytes : Nat) :
    MetaScanState × GoStr :=
  metaScanLoopS eng maxBytes (body.length + 1) body metaScanInit

/-! ## The preview fetch pipeline (`fetchPreviewInternal`, `fetchPreview`) -/

/-- Go `Preview` (main.go lines 25-35). -/
structure Preview where
  url : GoStr
  title : GoStr
  description : GoStr
  image : GoStr
  siteName : GoStr
  favicon : GoStr
  domain : GoStr
  error : GoStr
  originalURL : GoStr
deriving DecidableEq, Repr

/-- The zero `Preview` value. -/
def Preview.zero : Preview := ⟨[], [], [], [], [], [], [], [], []⟩

/-- An upstream response to a page fetch: the numeric status code, the
status line `resp.Status` (such as `404 Not Found`), and the raw body
bytes. -/
structure PageResp where
  statusCode : Nat
  status : GoStr
  body : GoStr
deriving DecidableEq, Repr

/-- The deterministic checks `net/http` performs before any network I/O,
wrapped around the network oracle `net`: `Transport.RoundTrip` rejects a
scheme other than `http`/`https` with `unsupported protocol scheme` and an
empty host with `http: no Host in request URL`, and `Client.do` wraps both
transport checks and oracle errors in a `*url.Error` with operation `Get`
and URL `stripPassword(req.URL)` (the parsed URL re-serialized).  The
oracle is keyed by the raw request URL; redirect handling and all true
network behaviour live in the oracle. -/
def clientDo (net : GoStr → Except GoErr PageResp) (rawURL : GoStr) (u : GoURL) :
    Except GoErr PageResp :=
  if !(u.scheme == gs "http" || u.scheme == gs "https") then
    .error (.urlErr (gs "Get") (stripPassword u)
      (.msg (gs "unsupported protocol scheme " ++ goQuote u.scheme)))
  else if u.host == [] then
    .error (.urlErr (gs "Get") (stripPassword u)
      (.msg (gs "http: no Host in request URL")))
  else
    match net rawURL with
    | .error e => .error (.urlErr (gs "Get") (stripPassword u) e)
    | .ok resp => .ok resp

/-- Result of one `fetchPreviewInternal` call: the `Preview` return value,
the `error` return value, and how many times `client.Do` was invoked. -/
structure FetchOutcome where
  preview : Preview
  err : Option GoErr
  doCalls : Nat
deriving Repr

/-- The record built on the 200 path of `fetchPreviewInternal` (main.go
lines 310-345): extract metadata with `maxBytes = 100000`, fall back to the
host for an empty title or site name, HTML-unescape title and (non-empty)
description, resolve a non-empty image or favicon against the page URL,
default the favicon to `scheme://host/favicon.ico`, and truncate the title
to 200 bytes and the description to 300. -/
def successPreview (eng : Engines) (targetURL : GoStr) (parsed : GoURL)
    (resp : PageResp) : Preview :=
  let st := (extractMetaTags eng resp.body 100000).1
  let title0 := if st.title == [] then parsed.host else st.title
  let title := eng.unescapeHTML title0
  let description :=
    if st.description != [] then eng.unescapeHTML st.description
    else st.description
  let image :=
    if st.image != [] then resolveURL st.image targetURL else st.image
  let siteName := if st.siteName == [] then parsed.host else st.siteName
  let favicon :=
    if st.favicon == [] then
      parsed.scheme ++ gs "://" ++ parsed.host ++ gs "/favicon.ico"
    else resolveURL st.favicon targetURL
  { url := targetURL, title := truncate title 200,
    description := truncate description 300, image := image,
    siteName := siteName, favicon := favicon, domain := parsed.host,
    error := [], originalURL := [] }

/-- Go `fetchPreviewInternal` (main.go lines 290-346): parse the URL
(failure gives the `Invalid URL` record before any `client.Do`), fetch
(failure gives `Failed to fetch`), reject any status other than 200 with
`HTTP <status>`, otherwise extract metadata with a 100000-byte `maxBytes`,
apply fallbacks, resolve image/favicon, truncate title and description. -/
def fetchPreviewInternal (eng : Engines) (net : GoStr → Except GoErr PageResp)
    (targetURL : GoStr) : FetchOutcome :=
  match urlParse targetURL with
  | .error e =>
    ⟨{ Preview.zero with url := targetURL, error := gs "Invalid URL" }, some e, 0⟩
  | .ok parsed =>
    match clientDo net targetURL parsed with
    | .error e =>
      ⟨{ Preview.zero with url := targetURL, error := gs "Failed to fetch" }, some e, 1⟩
    | .ok resp =>
      if resp.statusCode != 200 then
        ⟨{ Preview.zero with url := targetURL, error := gs "HTTP " ++ resp.status },
         some (.httpStatus resp.statusCode), 1⟩
      else
        ⟨successPreview eng targetURL parsed resp, none, 1⟩

/-- Result of one `fetchPreview` call: the returned record, the preview
cache afterwards, the `metrics.PreviewHits`/`PreviewMisses` increments and
the number of `client.Do` invocations. -/
structure PreviewOutcome where
  preview : Preview
  cache : LruCache Preview
  previewHits : Nat
  previewMisses : Nat
  doCalls : Nat
deriving Repr

/-- Go `fetchPreview` (main.go lines 263-288) as seen by one caller: cache
lookup under the hashed key, then `requestGroup.Do` running
`fetchPreviewInternal` (the cross-caller sharing of that call is modelled
separately by `FlightSys`).  A non-nil error produces a fresh record whose
`Error` is `err.Error()` and leaves the cache untouched; a nil error stores
the shared record in the cache. -/
def fetchPreview (eng : Engines) (net : GoStr → Except GoErr PageResp)
    (cache : LruCache Preview) (targetURL : GoStr) : PreviewOutcome :=
  let cacheKey := hashURL targetURL
  match cache.get cacheKey with
  | (some cached, cache1) => ⟨cached, cache1, 1, 0, 0⟩
  | (none, cache1) =>
    let oc := fetchPreviewInternal eng net targetURL
    match oc.err with
    | some e =>
      ⟨{ Preview.zero with url := targetURL, error := errString e },
       cache1, 0, 1, oc.doCalls⟩
    | none => ⟨oc.preview, cache1.add cacheKey oc.preview, 0, 1, oc.doCalls⟩

/-- Go `handlePreviews` (main.go lines 376-400): zero URLs or more than 20
URLs give HTTP 400; otherwise one goroutine per URL runs `fetchPreview` and
writes its record at the URL's own input index (`results[idx]`).  Each
sub-request is modelled against the cache as of the batch's arrival; the
result array is by construction indexed by input position. -/
def handlePreviews (eng : Engines) (net : GoStr → Except GoErr PageResp)
    (cache : LruCache Preview) (urls : List GoStr) : Except Nat (List Preview) :=
  if urls.length == 0 then .error 400
  else if urls.length > 20 then .error 400
  else .ok (urls.map (fun u => (fetchPreview eng net cache u).preview))

/-! ## The deduplication layer (`requestGroup`, main.go lines 64 and 277)

`fetchPreview` funnels every cache miss through
`requestGroup.Do(targetURL, ...)` of `golang.org/x/sync/singleflight`.
The package's contract — only one execution in flight per key at a time,
duplicate callers wait for the original and receive the same results —
is modelled as a transition system: `arrive` is a caller entering `Do`
(after its cache miss), `complete` is the shared call finishing and fanning
its one result out to every registered waiter. -/

/-- The state of the deduplication layer: the in-flight calls with their
registered waiter ids, the log of outbound fetches started (most recent
first), and the results delivered to callers so far. -/
structure FlightSys (α : Type) where
  flights : List (GoStr × List Nat)
  fetches : List GoStr
  delivered : List (Nat × α)
deriving Repr

/-- The idle deduplication layer. -/
def FlightSys.idle (α : Type) : FlightSys α := ⟨[], [], []⟩

/-- A caller `cid` enters `Do` for key `k`: if a call for `k` is in flight
the caller is registered as one more waiter; otherwise a new call is
created with this caller as its first waiter and an outbound fetch starts. -/
def FlightSys.arrive {α : Type} (s : FlightSys α) (cid : Nat) (k : GoStr) :
    FlightSys α :=
  match s.flights.lookup k with
  | some ws =>
    { s with
        flights := s.flights.map (fun p => if p.1 == k then (p.1, ws ++ [cid]) else p) }
  | none =>
    { s with flights := (k, [cid]) :: s.flights, fetches := k :: s.fetches }

/-- The in-flight call for key `k` finishes with result `r`: the call is
deregistered and the one shared result is delivered to every waiter. -/
def FlightSys.complete {α : Type} (s : FlightSys α) (k : GoStr) (r : α) :
    FlightSys α :=
  match s.flights.lookup k with
  | some ws =>
    { s with
        flights := s.flights.filter (fun p => !(p.1 == k)),
        delivered := ws.map (fun c => (c, r)) ++ s.delivered }
  | none => s

/-! ## Concrete instances used in closed statements -/

/-- An oracle answering every page fetch with an empty 200 response. -/
def netOk : GoStr → Except GoErr PageResp := fun _ => .ok ⟨200, gs "200 OK", []⟩

/-- An oracle answering every page fetch with 404. -/
def net404 : GoStr → Except GoErr PageResp := fun _ => .ok ⟨404, gs "404 Not Found", []⟩

/-- An oracle answering every page fetch with 201, a 2xx status that is not
200. -/
def net201 : GoStr → Except GoErr PageResp := fun _ => .ok ⟨201, gs "201 Created", []⟩

/-- An oracle serving a small (7-byte) image. -/
def imgNetSmall : GoStr → Except GoErr ImgResp := fun _ => .ok ⟨200, gs "image/png", gs "PNGDATA"⟩

/-- An oracle serving a 600 KiB (614400-byte) image. -/
def imgNetBig : GoStr → Except GoErr ImgResp :=
  fun _ => .ok ⟨200, gs "image/png", List.replicate 614400 7⟩

/-- A 50001-byte line with no tag-trigger substrings in it. -/
def lineA : GoStr := List.replicate 50001 97

/-- A raw body stream: the 50001-byte line, its newline, and a second
line. -/
def streamA : GoStr := lineA ++ 10 :: gs "<next>"

/-! ## Helper lemmas -/

/-- A `truncate` result never exceeds the limit. -/
theorem truncate_length_le (s : GoStr) (n : Nat) : (truncate s n).length ≤ n := by
  unfold truncate
  split
  · simp
  · omega

/-- A miss leaves an LRU cache unchanged. -/
theorem LruCache.get_none {α : Type} (c : LruCache α) (k : GoStr)
    (h : (c.get k).1 = none) : c.get k = (none, c) := by
  unfold LruCache.get at h ⊢
  cases hl : c.entries.lookup k with
  | none => simp [hl]
  | some v => simp [hl] at h

/-- A hit returns the looked-up entry. -/
theorem LruCache.get_some {α : Type} (c : LruCache α) (k : GoStr) (v : α)
    (h : (c.get k).1 = some v) :
    c.get k = (some v, ⟨c.cap, (k, v) :: c.entries.filter (fun p => !(p.1 == k))⟩) := by
  unfold LruCache.get at h ⊢
  cases hl : c.entries.lookup k with
  | none => simp [hl] at h
  | some w => simp [hl] at h ⊢; exact h

/-- A key just added to an LRU cache with positive capacity is found by the
next lookup. -/
theorem LruCache.get_add_self {α : Type} (c : LruCache α) (k : GoStr) (v : α)
    (h : 0 < c.cap) : ((c.add k v).get k).1 = some v := by
  unfold LruCache.add LruCache.get
  cases hc : c.cap with
  | zero => omega
  | succ n => simp [List.lookup]

/-- Case characterization of `fetchPreviewInternal`: exactly one of the
invalid-URL, fetch-failure, bad-status or success outcomes occurs, with the
outcome record as in the source. -/
theorem fetchPreviewInternal_cases (eng : Engines)
    (net : GoStr → Except GoErr PageResp) (u : GoStr) :
    (∃ e, urlParse u = .error e ∧
      fetchPreviewInternal eng net u
        = ⟨{ Preview.zero with url := u, error := gs "Invalid URL" }, some e, 0⟩) ∨
    (∃ parsed e, urlParse u = .ok parsed ∧ clientDo net u parsed = .error e ∧
      fetchPreviewInternal eng net u
        = ⟨{ Preview.zero with url := u, error := gs "Failed to fetch" }, some e, 1⟩) ∨
    (∃ parsed resp, urlParse u = .ok parsed ∧ clientDo net u parsed = .ok resp ∧
      resp.statusCode ≠ 200 ∧
      fetchPreviewInternal eng net u
        = ⟨{ Preview.zero with url := u, error := gs "HTTP " ++ resp.status },
           some (.httpStatus resp.statusCode), 1⟩) ∨
    (∃ parsed resp, urlParse u = .ok parsed ∧ clientDo net u parsed = .ok resp ∧
      resp.statusCode = 200 ∧
      fetchPreviewInternal eng net u
        = ⟨successPreview eng u parsed resp, none, 1⟩) := by
  cases hp : urlParse u with
  | error e =>
    refine .inl ⟨e, rfl, ?_⟩
    simp [fetchPreviewInternal, hp]
  | ok parsed =>
    cases hd : clientDo net u parsed with
    | error e =>
      refine .inr (.inl ⟨parsed, e, rfl, hd, ?_⟩)
      simp [fetchPreviewInternal, hp, hd]
    | ok resp =>
      by_cases hs : resp.statusCode = 200
      · have hb : (resp.statusCode != 200) = false := by simp [hs]
        refine .inr (.inr (.inr ⟨parsed, resp, rfl, hd, hs, ?_⟩))
        simp [fetchPreviewInternal, hp, hd, hb]
      · have hb : (resp.statusCode != 200) = true := by simpa using hs
        refine .inr (.inr (.inl ⟨parsed, resp, rfl, hd, hs, ?_⟩))
        simp [fetchPreviewInternal, hp, hd, hb]

/-- C1: the claim says a proxy-image lookup more than five minutes after the
entry was inserted is treated as a cache miss.  The code has no such check:
an entry inserted at time 0 is still served as a hit at time 400 s, 100 s
past the 300 s TTL — the lookup result is counted as `ImageHits`, the stored
bytes are written back, and no miss is recorded. -/
theorem C1_image_ttl_counterexample :
    (handleProxyImage imgNetSmall 0 (LruCache.empty ImageCacheEntry 50)
        (gs "http://img.test/a.png")).imageMisses = 1 ∧
    (handleProxyImage imgNetSmall 400
        (handleProxyImage imgNetSmall 0 (LruCache.empty ImageCacheEntry 50)
            (gs "http://img.test/a.png")).cache
        (gs "http://img.test/a.png")).imageHits = 1 ∧
    (handleProxyImage imgNetSmall 400
        (handleProxyImage imgNetSmall 0 (LruCache.empty ImageCacheEntry 50)
            (gs "http://img.test/a.png")).cache
        (gs "http://img.test/a.png")).imageMisses = 0 ∧
    (handleProxyImage imgNetSmall 400
        (handleProxyImage imgNetSmall 0 (LruCache.empty ImageCacheEntry 50)
            (gs "http://img.test/a.png")).cache
        (gs "http://img.test/a.png")).result
      = .served (gs "image/png") imageCacheTTLSeconds (gs "PNGDATA") ∧
    400 > 0 + imageCacheTTLSeconds := by
  decide

/-- C1 (amended): a proxy-image lookup that finds an entry in the image
cache serves its stored bytes as a hit at every wall-clock time `now`,
regardless of when the entry was inserted; the 5-minute TTL appears only as
the `Cache-Control: max-age=300` header value.  Entries leave the cache only
through LRU eviction. -/
theorem C1_image_ttl_amended (net : GoStr → Except GoErr ImgResp) (now : Nat)
    (cache : LruCache ImageCacheEntry) (u : GoStr) (e : ImageCacheEntry)
    (hu : u ≠ [])
    (hhit : (cache.get (gs "img_" ++ hashURL u)).1 = some e) :
    (handleProxyImage net now cache u).result
      = .served e.contentType imageCacheTTLSeconds e.data ∧
    (handleProxyImage net now cache u).imageHits = 1 ∧
    (handleProxyImage net now cache u).imageMisses = 0 := by
  have hget := LruCache.get_some cache (gs "img_" ++ hashURL u) e hhit
  have hu2 : (u == ([] : GoStr)) = false := beq_eq_false_iff_ne.mpr hu
  simp [handleProxyImage, hu2, hget]

/-- C1 (amended) at a concrete input: a cache holding one entry serves it at
time 1000000 s. -/
theorem C1_image_ttl_amended_witness :
    (gs "http://img.test/a.png" ≠ []) ∧
    (((LruCache.mk 50 [(gs "img_" ++ hashURL (gs "http://img.test/a.png"),
          ImageCacheEntry.mk (gs "PNGDATA") (gs "image/png"))]).get
        (gs "img_" ++ hashURL (gs "http://img.test/a.png"))).1
      = some (ImageCacheEntry.mk (gs "PNGDATA") (gs "image/png"))) ∧
    ((handleProxyImage imgNetSmall 1000000
        (LruCache.mk 50 [(gs "img_" ++ hashURL (gs "http://img.test/a.png"),
          ImageCacheEntry.mk (gs "PNGDATA") (gs "image/png"))])
        (gs "http://img.test/a.png")).result
      = .served (gs "image/png") imageCacheTTLSeconds (gs "PNGDATA") ∧
    (handleProxyImage imgNetSmall 1000000
        (LruCache.mk 50 [(gs "img_" ++ hashURL (gs "http://img.test/a.png"),
          ImageCacheEntry.mk (gs "PNGDATA") (gs "image/png"))])
        (gs "http://img.test/a.png")).imageHits = 1 ∧
    (handleProxyImage imgNetSmall 1000000
        (LruCache.mk 50 [(gs "img_" ++ hashURL (gs "http://img.test/a.png"),
          ImageCacheEntry.mk (gs "PNGDATA") (gs "image/png"))])
        (gs "http://img.test/a.png")).imageMisses = 0) :=
  ⟨by decide, by decide,
   C1_image_ttl_amended imgNetSmall 1000000
     (LruCache.mk 50 [(gs "img_" ++ hashURL (gs "http://img.test/a.png"),
       ImageCacheEntry.mk (gs "PNGDATA") (gs "image/png"))])
     (gs "http://img.test/a.png")
     (ImageCacheEntry.mk (gs "PNGDATA") (gs "image/png"))
     (by decide) (by decide)⟩

/-- C10: on a proxy-image cache miss with a 200 response whose payload fits
the 2 MiB read ceiling, the payload is served to the caller in full; it is
admitted to the image cache exactly when it is strictly below
`500*1024` bytes, and a payload at or above that ceiling leaves the cache
unchanged, so a subsequent identical request is again a miss. -/
theorem C10_size_admission (net : GoStr → Except GoErr ImgResp) (now now2 : Nat)
    (cache : LruCache ImageCacheEntry) (u : GoStr) (resp : ImgResp)
    (hu : u ≠ [])
    (hcap : 0 < cache.cap)
    (hmiss : (cache.get (gs "img_" ++ hashURL u)).1 = none)
    (hnet : net u = .ok resp)
    (hst : resp.statusCode = 200)
    (hlen : resp.body.length ≤ 2 * 1024 * 1024) :
    (handleProxyImage net now cache u).result
      = .served (if resp.contentType == [] then gs "image/jpeg" else resp.contentType)
          imageCacheTTLSeconds resp.body ∧
    (handleProxyImage net now cache u).imageMisses = 1 ∧
    (resp.body.length < 500 * 1024 →
      (((handleProxyImage net now cache u).cache.get (gs "img_" ++ hashURL u)).1
        = some ⟨resp.body,
            if resp.contentType == [] then gs "image/jpeg" else resp.contentType⟩)) ∧
    (500 * 1024 ≤ resp.body.length →
      (handleProxyImage net now cache u).cache = cache ∧
      (handleProxyImage net now2 cache u).imageMisses = 1) := by
  have hget := LruCache.get_none cache (gs "img_" ++ hashURL u) hmiss
  have hu2 : (u == ([] : GoStr)) = false := beq_eq_false_iff_ne.mpr hu
  have htake : resp.body.take (2 * 1024 * 1024) = resp.body :=
    List.take_of_length_le hlen
  refine ⟨?_, ?_, ?_, ?_⟩
  · simp [handleProxyImage, hu2, hget, hnet, hst, htake]
  · simp [handleProxyImage, hu2, hget, hnet, hst]
  · intro hsmall
    have hsm : resp.body.length < 500 * 1024 := hsmall
    simp [handleProxyImage, hu2, hget, hnet, hst, htake, hsm,
      LruCache.get_add_self _ _ _ hcap]
  · intro hbig
    have hnotsm : ¬ resp.body.length < 500 * 1024 := by omega
    constructor
    · simp [handleProxyImage, hu2, hget, hnet, hst, htake, hnotsm]
    · simp [handleProxyImage, hu2, hget, hnet, hst]

/-- C10 at a concrete input: a 614400-byte (600 KiB) payload is served in
full and not admitted; the follow-up request misses again. -/
theorem C10_size_admission_witness :
    (gs "http://img.test/big.jpg" ≠ []) ∧
    (0 < (LruCache.empty ImageCacheEntry 50).cap) ∧
    (((LruCache.empty ImageCacheEntry 50).get
        (gs "img_" ++ hashURL (gs "http://img.test/big.jpg"))).1 = none) ∧
    (imgNetBig (gs "http://img.test/big.jpg")
      = .ok ⟨200, gs "image/png", List.replicate 614400 7⟩) ∧
    ((List.replicate (614400 : Nat) (7 : UInt8)).length ≤ 2 * 1024 * 1024) ∧
    ((handleProxyImage imgNetBig 0 (LruCache.empty ImageCacheEntry 50)
        (gs "http://img.test/big.jpg")).result
      = .served (gs "image/png") imageCacheTTLSeconds (List.replicate 614400 7) ∧
    (500 * 1024 ≤ (List.replicate (614400 : Nat) (7 : UInt8)).length →
      (handleProxyImage imgNetBig 0 (LruCache.empty ImageCacheEntry 50)
          (gs "http://img.test/big.jpg")).cache = LruCache.empty ImageCacheEntry 50 ∧
      (handleProxyImage imgNetBig 1 (LruCache.empty ImageCacheEntry 50)
          (gs "http://img.test/big.jpg")).imageMisses = 1)) := by
  refine ⟨by decide, by decide, by decide, rfl, by rw [List.length_replicate]; omega, ?_, ?_⟩
  · exact (C10_size_admission imgNetBig 0 1 (LruCache.empty ImageCacheEntry 50)
      (gs "http://img.test/big.jpg") ⟨200, gs "image/png", List.replicate 614400 7⟩
      (by decide) (by decide) (by decide) rfl rfl (by rw [List.length_replicate]; omega)).1
  · exact (C10_size_admission imgNetBig 0 1 (LruCache.empty ImageCacheEntry 50)
      (gs "http://img.test/big.jpg") ⟨200, gs "image/png", List.replicate 614400 7⟩
      (by decide) (by decide) (by decide) rfl rfl (by rw [List.length_replicate]; omega)).2.2.2

/-- C6: on every successful fetch the stored record's title is at most 200
bytes and its description at most 300 (Go `len` counts bytes, the spec's
"code units"); `truncate` cuts an over-long string to exactly the limit and
leaves a short one untouched, never failing.  Holds for every regex/unescape
engine behaviour and every network response. -/
theorem C6_truncation (eng : Engines) (net : GoStr → Except GoErr PageResp)
    (u : GoStr) (hok : (fetchPreviewInternal eng net u).err = none) :
    (fetchPreviewInternal eng net u).preview.title.length ≤ 200 ∧
    (fetchPreviewInternal eng net u).preview.description.length ≤ 300 ∧
    (∀ s : GoStr, 200 < s.length →
      truncate s 200 = s.take 200 ∧ (truncate s 200).length = 200) ∧
    (∀ s : GoStr, 300 < s.length →
      truncate s 300 = s.take 300 ∧ (truncate s 300).length = 300) ∧
    (∀ s : GoStr, s.length ≤ 200 → truncate s 200 = s) := by
  have hsucc : ∃ parsed resp,
      fetchPreviewInternal eng net u = ⟨successPreview eng u parsed resp, none, 1⟩ := by
    rcases fetchPreviewInternal_cases eng net u with
      ⟨e, _, heq⟩ | ⟨p, e, _, _, heq⟩ | ⟨p, r, _, _, _, heq⟩ | ⟨p, r, _, _, _, heq⟩
    · rw [heq] at hok; simp at hok
    · rw [heq] at hok; simp at hok
    · rw [heq] at hok; simp at hok
    · exact ⟨p, r, heq⟩
  obtain ⟨parsed, resp, heq⟩ := hsucc
  refine ⟨?_, ?_, ?_, ?_, ?_⟩
  · rw [heq]
    exact truncate_length_le _ 200
  · rw [heq]
    exact truncate_length_le _ 300
  · intro s hs
    unfold truncate
    rw [if_pos (by omega)]
    exact ⟨rfl, by simp; omega⟩
  · intro s hs
    unfold truncate
    rw [if_pos (by omega)]
    exact ⟨rfl, by simp; omega⟩
  · intro s hs
    unfold truncate
    rw [if_neg (by omega)]

/-- C6 at a concrete input: a successful fetch of `http://example.com` and
concrete 250/350-byte strings truncated to exactly 200/300. -/
theorem C6_truncation_witness :
    ((fetchPreviewInternal engNone netOk (gs "http://example.com")).err = none) ∧
    (fetchPreviewInternal engNone netOk (gs "http://example.com")).preview.title.length ≤ 200 ∧
    (fetchPreviewInternal engNone netOk (gs "http://example.com")).preview.description.length ≤ 300 ∧
    truncate (List.replicate 250 97) 200 = List.replicate 200 97 ∧
    (truncate (List.replicate 250 97) 200).length = 200 ∧
    truncate (List.replicate 350 97) 300 = List.replicate 300 97 ∧
    (truncate (List.replicate 350 97) 300).length = 300 := by
  have h := C6_truncation engNone netOk (gs "http://example.com") (by decide)
  exact ⟨by decide, h.1, h.2.1, by decide, by decide, by decide, by decide⟩

/-- C3: when the shared fetch fails (the returned error is non-nil), every
caller of `fetchPreview` gets a record carrying `err.Error()` while the
preview cache is left exactly as it was; and the records stored on the
success path always have an empty error field, so no record with an error
set is ever added to the cache. -/
theorem C3_failure_not_cached (eng : Engines) (net : GoStr → Except GoErr PageResp)
    (cache : LruCache Preview) (u : GoStr) (e : GoErr)
    (hmiss : (cache.get (hashURL u)).1 = none)
    (herr : (fetchPreviewInternal eng net u).err = some e) :
    (fetchPreview eng net cache u).cache = cache ∧
    (fetchPreview eng net cache u).preview
      = { Preview.zero with url := u, error := errString e } ∧
    (∀ (eng2 : Engines) (net2 : GoStr → Except GoErr PageResp) (u2 : GoStr),
      (fetchPreviewInternal eng2 net2 u2).err = none →
      (fetchPreviewInternal eng2 net2 u2).preview.error = []) := by
  have hget := LruCache.get_none cache (hashURL u) hmiss
  refine ⟨?_, ?_, ?_⟩
  · simp [fetchPreview, hget, herr]
  · simp [fetchPreview, hget, herr]
  · intro eng2 net2 u2 hok
    rcases fetchPreviewInternal_cases eng2 net2 u2 with
      ⟨e2, _, heq⟩ | ⟨p, e2, _, _, heq⟩ | ⟨p, r, _, _, _, heq⟩ | ⟨p, r, _, _, _, heq⟩
    · rw [heq] at hok; simp at hok
    · rw [heq] at hok; simp at hok
    · rw [heq] at hok; simp at hok
    · rw [heq]
      rfl

/-- C3 at a concrete input: a 404 answer for `http://example.com` is
returned as `HTTP 404` and the (empty) cache stays empty. -/
theorem C3_failure_not_cached_witness :
    (((LruCache.empty Preview 5000).get (hashURL (gs "http://example.com"))).1 = none) ∧
    ((fetchPreviewInternal engNone net404 (gs "http://example.com")).err
      = some (.httpStatus 404)) ∧
    (fetchPreview engNone net404 (LruCache.empty Preview 5000)
        (gs "http://example.com")).cache = LruCache.empty Preview 5000 ∧
    (fetchPreview engNone net404 (LruCache.empty Preview 5000)
        (gs "http://example.com")).preview
      = { Preview.zero with
            url := gs "http://example.com",
            error := errString (.httpStatus 404) } := by
  have h := C3_failure_not_cached engNone net404 (LruCache.empty Preview 5000)
    (gs "http://example.com") (.httpStatus 404) (by decide) (by decide)
  exact ⟨by decide, by decide, h.1, h.2.1⟩

/-- C8: a batch of 1 to 20 URLs returns exactly one record per input URL,
in input order (`results[idx]` is the record of `urls[idx]`), and the record
at each index is a function of that URL alone: any other batch that has the
same URL at some index gets the identical record there, whatever happens to
its sibling URLs. -/
theorem C8_batch_order (eng : Engines) (net : GoStr → Except GoErr PageResp)
    (cache : LruCache Preview) (urls : List GoStr)
    (h1 : 1 ≤ urls.length) (h2 : urls.length ≤ 20) :
    handlePreviews eng net cache urls
      = .ok (urls.map (fun u => (fetchPreview eng net cache u).preview)) ∧
    ∃ rs, handlePreviews eng net cache urls = .ok rs ∧
      rs.length = urls.length ∧
      (∀ i : Nat, rs[i]? = urls[i]?.map (fun u => (fetchPreview eng net cache u).preview)) ∧
      (∀ (urls2 : List GoStr) (rs2 : List Preview) (i : Nat),
        handlePreviews eng net cache urls2 = .ok rs2 →
        urls[i]? = urls2[i]? → rs[i]? = rs2[i]?) := by
  have h0 : (urls.length == 0) = false := by
    simp only [beq_eq_false_iff_ne]; omega
  have h20 : ¬ (urls.length > 20) := by omega
  have hmain : handlePreviews eng net cache urls
      = .ok (urls.map (fun u => (fetchPreview eng net cache u).preview)) := by
    simp [handlePreviews, h0, h20]
  refine ⟨hmain, urls.map (fun u => (fetchPreview eng net cache u).preview),
    hmain, by simp, ?_, ?_⟩
  · intro i
    simp [List.getElem?_map]
  · intro urls2 rs2 i hh2 heq
    have hrs2 : rs2 = urls2.map (fun u => (fetchPreview eng net cache u).preview) := by
      by_cases hz : (urls2.length == 0) = true
      · simp [handlePreviews, hz] at hh2
      · by_cases hg : urls2.length > 20
        · simp [handlePreviews, hz, hg] at hh2
        · rw [handlePreviews, if_neg (by simp [hz]), if_neg hg] at hh2
          exact (Except.ok.injEq _ _ ▸ hh2).symm
    subst hrs2
    simp [List.getElem?_map, heq]

/-- C8 at a concrete input: the three-URL batch of the specification's test,
with its middle element malformed, in input order. -/
theorem C8_batch_order_witness :
    (1 ≤ ([gs "https://a.test", gs "bad-url", gs "https://b.test"] : List GoStr).length) ∧
    (([gs "https://a.test", gs "bad-url", gs "https://b.test"] : List GoStr).length ≤ 20) ∧
    handlePreviews engNone netOk (LruCache.empty Preview 5000)
        [gs "https://a.test", gs "bad-url", gs "https://b.test"]
      = .ok ([gs "https://a.test", gs "bad-url", gs "https://b.test"].map
          (fun u => (fetchPreview engNone netOk (LruCache.empty Preview 5000) u).preview)) :=
  ⟨by decide, by decide,
   (C8_batch_order engNone netOk (LruCache.empty Preview 5000)
     [gs "https://a.test", gs "bad-url", gs "https://b.test"]
     (by decide) (by decide)).1⟩

/-- C4: the claim says `bad-url` yields a record whose error indicates an
invalid URL, detected before any network call.  In fact Go `url.Parse`
accepts `bad-url` (as a relative path), so `client.Do` is invoked
(`doCalls = 1`, not 0), and the record's error is the transport failure
`Get "bad-url": unsupported protocol scheme ""` — not the code's
`Invalid URL` indication. -/
theorem C4_bad_url_counterexample :
    urlParse (gs "bad-url") = .ok { GoURL.zero with path := gs "bad-url" } ∧
    (fetchPreviewInternal engNone netOk (gs "bad-url")).doCalls = 1 ∧
    (fetchPreviewInternal engNone netOk (gs "bad-url")).preview.error
      ≠ gs "Invalid URL" ∧
    (fetchPreview engNone netOk (LruCache.empty Preview 5000) (gs "bad-url")).preview.error
      = gs "Get \"bad-url\": unsupported protocol scheme \"\"" := by
  decide

/-- C4 (amended): exactly the URLs rejected by `url.Parse` are detected
before any network call (`doCalls = 0`), with the internal record's error
set to `Invalid URL` and the record returned to the caller carrying the
parse error text; a string such as `bad-url` that `url.Parse` accepts
proceeds to the HTTP client and fails there instead. -/
theorem C4_invalid_url_amended (eng : Engines) (net : GoStr → Except GoErr PageResp)
    (u : GoStr) (e : GoErr) (hparse : urlParse u = .error e) :
    fetchPreviewInternal eng net u
      = ⟨{ Preview.zero with url := u, error := gs "Invalid URL" }, some e, 0⟩ ∧
    (∀ cache : LruCache Preview, (cache.get (hashURL u)).1 = none →
      (fetchPreview eng net cache u).preview
        = { Preview.zero with url := u, error := errString e } ∧
      (fetchPreview eng net cache u).cache = cache) := by
  have hint : fetchPreviewInternal eng net u
      = ⟨{ Preview.zero with url := u, error := gs "Invalid URL" }, some e, 0⟩ := by
    simp [fetchPreviewInternal, hparse]
  refine ⟨hint, ?_⟩
  intro cache hm
  have hget := LruCache.get_none cache (hashURL u) hm
  constructor
  · simp [fetchPreview, hget, hint]
  · simp [fetchPreview, hget, hint]

/-- C4 (amended) at a concrete input: a URL holding a control byte (a tab)
is rejected by the parser and never reaches the network. -/
theorem C4_invalid_url_amended_witness :
    (urlParse (gs "http://ex\tample.com")
      = .error (.urlErr (gs "parse") (gs "http://ex\tample.com")
          (.msg (gs "net/url: invalid control character in URL")))) ∧
    fetchPreviewInternal engNone netOk (gs "http://ex\tample.com")
      = ⟨{ Preview.zero with url := gs "http://ex\tample.com", error := gs "Invalid URL" },
         some (.urlErr (gs "parse") (gs "http://ex\tample.com")
           (.msg (gs "net/url: invalid control character in URL"))), 0⟩ ∧
    (fetchPreview engNone netOk (LruCache.empty Preview 5000)
        (gs "http://ex\tample.com")).preview
      = { Preview.zero with
            url := gs "http://ex\tample.com",
            error := errString (.urlErr (gs "parse") (gs "http://ex\tample.com")
              (.msg (gs "net/url: invalid control character in URL"))) } := by
  have h := C4_invalid_url_amended engNone netOk (gs "http://ex\tample.com")
    (.urlErr (gs "parse") (gs "http://ex\tample.com")
      (.msg (gs "net/url: invalid control character in URL")))
    (by decide)
  exact ⟨by decide, h.1, (h.2 (LruCache.empty Preview 5000) (by decide)).1⟩

/-- C5: the claim says every 2xx response proceeds to metadata extraction
and succeeds, and that a failure record keeps the domain recoverable.  The
code tests `resp.StatusCode != 200`: the 2xx status 201 produces a failure
record carrying `HTTP 201 Created` with a non-nil error and an empty domain
field. -/
theorem C5_status_counterexample :
    (200 ≤ 201 ∧ 201 < 300) ∧
    (fetchPreviewInternal engNone net201 (gs "http://example.com")).err
      = some (.httpStatus 201) ∧
    (fetchPreviewInternal engNone net201 (gs "http://example.com")).preview.error
      = gs "HTTP 201 Created" ∧
    (fetchPreviewInternal engNone net201 (gs "http://example.com")).preview.domain
      = [] := by
  decide

/-- C5 (amended): any status other than exactly 200 — including other 2xx
codes — yields a structured failure whose record error carries the status
line (`HTTP <status>`) and whose returned error carries the numeric code;
the failure record populates only the URL and error (no domain).  A 200
response proceeds to extraction and returns a nil error with an empty error
field and the parsed host as domain. -/
theorem C5_status_amended (eng : Engines) (net : GoStr → Except GoErr PageResp)
    (u : GoStr) (parsed : GoURL) (resp : PageResp)
    (hparse : urlParse u = .ok parsed)
    (hdo : clientDo net u parsed = .ok resp) :
    (resp.statusCode ≠ 200 →
      fetchPreviewInternal eng net u
        = ⟨{ Preview.zero with url := u, error := gs "HTTP " ++ resp.status },
           some (.httpStatus resp.statusCode), 1⟩) ∧
    (resp.statusCode = 200 →
      (fetchPreviewInternal eng net u).err = none ∧
      (fetchPreviewInternal eng net u).preview.error = [] ∧
      (fetchPreviewInternal eng net u).preview.domain = parsed.host) := by
  constructor
  · intro hs
    have hb : (resp.statusCode != 200) = true := by simpa using hs
    simp [fetchPreviewInternal, hparse, hdo, hb]
  · intro hs
    have hb : (resp.statusCode != 200) = false := by simp [hs]
    have heq : fetchPreviewInternal eng net u
        = ⟨successPreview eng u parsed resp, none, 1⟩ := by
      simp [fetchPreviewInternal, hparse, hdo, hb]
    rw [heq]
    exact ⟨rfl, rfl, rfl⟩

/-- C5 (amended) at a concrete input: a 404 response for
`http://example.com`. -/
theorem C5_status_amended_witness :
    (urlParse (gs "http://example.com")
      = .ok { GoURL.zero with scheme := gs "http", host := gs "example.com" }) ∧
    (clientDo net404 (gs "http://example.com")
        { GoURL.zero with scheme := gs "http", host := gs "example.com" }
      = .ok ⟨404, gs "404 Not Found", []⟩) ∧
    ((404 : Nat) ≠ 200) ∧
    fetchPreviewInternal engNone net404 (gs "http://example.com")
      = ⟨{ Preview.zero with
             url := gs "http://example.com",
             error := gs "HTTP " ++ gs "404 Not Found" },
         some (.httpStatus 404), 1⟩ := by
  have h := C5_status_amended engNone net404 (gs "http://example.com")
    { GoURL.zero with scheme := gs "http", host := gs "example.com" }
    ⟨404, gs "404 Not Found", []⟩ (by decide) (by decide)
  exact ⟨by decide, by decide, by decide, h.1 (by decide)⟩

/-- C7: the claim says resolving a relative reference against a valid
absolute base always returns an absolute URL, and an already-absolute
reference is returned unchanged.  Both halves fail: the relative reference
`httpimg/x.png` starts with the four bytes `http`, so `resolveURL` returns
it unchanged and the result is not absolute; and the absolute reference
`FTP://example.com/a` is re-serialized with a lower-cased scheme, so it is
not returned unchanged. -/
theorem C7_resolve_counterexample :
    isAbsURL (gs "http://example.com") = true ∧
    isAbsURL (gs "httpimg/x.png") = false ∧
    resolveURL (gs "httpimg/x.png") (gs "http://example.com") = gs "httpimg/x.png" ∧
    isAbsURL (resolveURL (gs "httpimg/x.png") (gs "http://example.com")) = false ∧
    isAbsURL (gs "FTP://example.com/a") = true ∧
    resolveURL (gs "FTP://example.com/a") (gs "http://example.com")
      = gs "ftp://example.com/a" ∧
    gs "ftp://example.com/a" ≠ gs "FTP://example.com/a" := by
  decide

/-- C7 (amended): `resolveURL` never raises an error: a reference beginning
with the four bytes `http` (even a relative one) is returned unchanged, as
is any reference or base that `url.Parse` rejects; every other reference is
resolved against the base with `ResolveReference` and re-serialized, which
may normalize it rather than reproduce it byte for byte. -/
theorem C7_resolve_amended (href base : GoStr) :
    ((gs "http").isPrefixOf href = true → resolveURL href base = href) ∧
    (∀ e, urlParse href = .error e → resolveURL href base = href) ∧
    (∀ e, urlParse base = .error e → resolveURL href base = href) ∧
    (∀ ub ur, (gs "http").isPrefixOf href = false →
      urlParse base = .ok ub → urlParse href = .ok ur →
      resolveURL href base = urlString (resolveReference ub ur)) := by
  refine ⟨?_, ?_, ?_, ?_⟩
  · intro h
    simp [resolveURL, h]
  · intro e h
    by_cases hp : (gs "http").isPrefixOf href
    · simp [resolveURL, hp]
    · cases hb : urlParse base with
      | error eb => simp [resolveURL, hp, hb]
      | ok ub => simp [resolveURL, hp, hb, h]
  · intro e h
    by_cases hp : (gs "http").isPrefixOf href
    · simp [resolveURL, hp]
    · simp [resolveURL, hp, h]
  · intro ub ur hp hb hr
    simp [resolveURL, hp, hb, hr]

/-- C7 (amended) at a concrete input: the `http`-prefixed relative
reference passes through unchanged. -/
theorem C7_resolve_amended_witness :
    ((gs "http").isPrefixOf (gs "httpimg/x.png") = true) ∧
    resolveURL (gs "httpimg/x.png") (gs "http://example.com") = gs "httpimg/x.png" :=
  ⟨by decide,
   (C7_resolve_amended (gs "httpimg/x.png") (gs "http://example.com")).1 (by decide)⟩

/-- One scan iteration accounts exactly the token's bytes. -/
theorem metaScanLine_bytesRead (eng : Engines) (st : MetaScanState) (line : GoStr) :
    (metaScanLine eng st line).bytesRead = st.bytesRead + line.length := rfl

/-- Dropping a trailing carriage return never lengthens a token. -/
theorem dropCR_length_le (s : GoStr) : (dropCR s).length ≤ s.length := by
  unfold dropCR
  split
  · rw [List.length_dropLast]
    omega
  · exact le_refl _

/-- A clean scanner end of input happens only on the empty stream. -/
theorem scanNext_eof_nil (maxBytes : Nat) (stream : GoStr)
    (h : scanNext maxBytes stream = .eof) : stream = [] := by
  by_cases hnil : stream = []
  · exact hnil
  · exfalso
    have hb : (stream == ([] : GoStr)) = false := beq_eq_false_iff_ne.mpr hnil
    rw [scanNext] at h
    simp only [hb, Bool.false_eq_true, if_false] at h
    split at h
    · simp at h
    · split at h <;> simp at h

/-- A scanner token is cut from a non-empty prefix of the stream that is at
least as long as the token. -/
theorem scanNext_token_split (maxBytes : Nat) (stream line rest : GoStr)
    (h : scanNext maxBytes stream = .token line rest) :
    ∃ c, c ≠ [] ∧ stream = c ++ rest ∧ line.length ≤ c.length := by
  by_cases hnil : stream = []
  · subst hnil
    simp [scanNext] at h
  · have hb : (stream == ([] : GoStr)) = false := beq_eq_false_iff_ne.mpr hnil
    rw [scanNext] at h
    simp only [hb, Bool.false_eq_true, if_false] at h
    split at h
    · rename_i i heq
      simp only [ScanStep.token.injEq] at h
      obtain ⟨hl, hr⟩ := h
      refine ⟨stream.take (i + 1), ?_, ?_, ?_⟩
      · intro hc
        rcases List.take_eq_nil_iff.mp hc with h0 | h0
        · omega
        · exact hnil h0
      · rw [← hr]
        exact (List.take_append_drop (i + 1) stream).symm
      · rw [← hl]
        calc (dropCR (stream.take i)).length
            ≤ (stream.take i).length := dropCR_length_le _
          _ ≤ (stream.take (i + 1)).length := by
              simp only [List.length_take]
              omega
    · split at h
      · simp only [ScanStep.token.injEq] at h
        obtain ⟨hl, hr⟩ := h
        refine ⟨stream, hnil, by rw [← hr]; simp, ?_⟩
        rw [← hl]
        exact dropCR_length_le _
      · simp at h

/-- Symbolic reduction of `scanNext` when the newline is found at a known
index. -/
theorem scanNext_eq_token (maxBytes : Nat) (stream : GoStr) (i : Nat)
    (hne : stream ≠ [])
    (hidx : goIndexSub (stream.take (max maxBytes 4096)) (gs "\n") = some i) :
    scanNext maxBytes stream = .token (dropCR (stream.take i)) (stream.drop (i + 1)) := by
  have hb : (stream == ([] : GoStr)) = false := beq_eq_false_iff_ne.mpr hne
  rw [scanNext]
  simp only [hb, Bool.false_eq_true, if_false, hidx]

/-- The scan loop consumes a prefix of the byte stream, reads at most as
many token bytes as it consumed, and stops early only because all fields
were found, the `maxScan` budget was exceeded, or the scanner cannot
produce the next token (`ErrTooLong`). -/
theorem metaScanLoopS_spec (eng : Engines) (maxBytes : Nat) :
    ∀ (fuel : Nat) (stream : GoStr) (st0 : MetaScanState),
      stream.length < fuel →
      ∃ consumed,
        stream = consumed ++ (metaScanLoopS eng maxBytes fuel stream st0).2 ∧
        (metaScanLoopS eng maxBytes fuel stream st0).1.bytesRead
          ≤ st0.bytesRead + consumed.length ∧
        ((metaScanLoopS eng maxBytes fuel stream st0).2 ≠ [] →
          (metaScanLoopS eng maxBytes fuel stream st0).1.allFound = true ∨
          (metaScanLoopS eng maxBytes fuel stream st0).1.bytesRead > maxScan ∨
          scanNext maxBytes (metaScanLoopS eng maxBytes fuel stream st0).2
            = .tooLong) := by
  intro fuel
  induction fuel with
  | zero =>
    intro stream st0 h
    exact absurd h (Nat.not_lt_zero _)
  | succ fuel ih =>
    intro stream st0 hlen
    cases hs : scanNext maxBytes stream with
    | eof =>
      have hnil : stream = [] := scanNext_eof_nil maxBytes stream hs
      have hred : metaScanLoopS eng maxBytes (fuel + 1) stream st0 = (st0, stream) := by
        simp [metaScanLoopS, hs]
      refine ⟨[], by simp [hred], by simp [hred], ?_⟩
      intro hne
      rw [hred] at hne
      exact absurd hnil hne
    | tooLong =>
      have hred : metaScanLoopS eng maxBytes (fuel + 1) stream st0 = (st0, stream) := by
        simp [metaScanLoopS, hs]
      refine ⟨[], by simp [hred], by simp [hred], ?_⟩
      intro _
      refine .inr (.inr ?_)
      rw [hred]
      exact hs
    | token line rest =>
      obtain ⟨c, hcne, hsplit, hclen⟩ := scanNext_token_split maxBytes stream line rest hs
      have hc1 : 1 ≤ c.length := List.length_pos.mpr hcne
      have hslen : stream.length = c.length + rest.length := by
        rw [hsplit]
        simp
      have hrlen : rest.length < fuel := by omega
      by_cases hstop :
        ((metaScanLine eng st0 line).allFound
          || decide ((metaScanLine eng st0 line).bytesRead > maxScan)) = true
      · have hred : metaScanLoopS eng maxBytes (fuel + 1) stream st0
            = (metaScanLine eng st0 line, rest) := by
          simp [metaScanLoopS, hs, hstop]
        refine ⟨c, by rw [hred]; exact hsplit, ?_, ?_⟩
        · rw [hred]
          show (metaScanLine eng st0 line).bytesRead ≤ st0.bytesRead + c.length
          rw [metaScanLine_bytesRead]
          omega
        · intro _
          rcases Bool.or_eq_true_iff.mp hstop with h | h
          · exact .inl (by rw [hred]; exact h)
          · exact .inr (.inl (by rw [hred]; exact of_decide_eq_true h))
      · have hstopf : ((metaScanLine eng st0 line).allFound
            || decide ((metaScanLine eng st0 line).bytesRead > maxScan)) = false := by
          simpa using hstop
        have hred : metaScanLoopS eng maxBytes (fuel + 1) stream st0
            = metaScanLoopS eng maxBytes fuel rest (metaScanLine eng st0 line) := by
          simp [metaScanLoopS, hs, hstopf]
        obtain ⟨c2, h2split, h2bytes, h2stop⟩ := ih rest (metaScanLine eng st0 line) hrlen
        refine ⟨c ++ c2, ?_, ?_, ?_⟩
        · rw [hred, hsplit, List.append_assoc]
          exact congrArg (c ++ ·) h2split
        · rw [hred]
          have hline := metaScanLine_bytesRead eng st0 line
          have : (metaScanLoopS eng maxBytes fuel rest (metaScanLine eng st0 line)).1.bytesRead
              ≤ st0.bytesRead + line.length + c2.length := by
            rw [← hline]
            exact h2bytes
          rw [List.length_append]
          omega
        · intro hne
          rw [hred] at hne ⊢
          exact h2stop hne

/-- C9 (amended): the extractor consumes a prefix of the body bytes — never
reading past its stopping point — and whenever input is left unconsumed,
either all five fields were resolved, or more than 50000 bytes of line
content (the hardcoded `maxScan`, not the 100000-byte `maxBytes` argument)
had been read, or the scanner cannot produce the next line within its
`maxBytes` token limit (a newline-terminated line must fit together with
its newline, so a line of `maxBytes` bytes already stops the scan). -/
theorem C9_scan_stop (eng : Engines) (maxBytes : Nat) (body : GoStr) :
    ∃ consumed, body = consumed ++ (extractMetaTags eng body maxBytes).2 ∧
      (extractMetaTags eng body maxBytes).1.bytesRead ≤ consumed.length ∧
      ((extractMetaTags eng body maxBytes).2 ≠ [] →
        (extractMetaTags eng body maxBytes).1.allFound = true ∨
        (extractMetaTags eng body maxBytes).1.bytesRead > maxScan ∨
        scanNext maxBytes (extractMetaTags eng body maxBytes).2 = .tooLong) := by
  have h := metaScanLoopS_spec eng maxBytes (body.length + 1) body metaScanInit
    (by omega)
  simpa [extractMetaTags, metaScanInit] using h

/-- With the never-matching engine a scan iteration only grows the buffer
and the byte count. -/
theorem metaScanLine_engNone (st : MetaScanState) (line : GoStr) :
    metaScanLine engNone st line
      = { st with htmlBuffer := st.htmlBuffer ++ line ++ [10],
                  bytesRead := st.bytesRead + line.length } := by
  have he : ∀ buf p, extractMetaFromBuffer engNone buf p = [] := fun _ _ => rfl
  have ht : ∀ buf, engNone.findTitleTag buf = none := fun _ => rfl
  have hf : ∀ buf, engNone.findFaviconLink buf = none := fun _ => rfl
  simp [metaScanLine, he, ht, hf]

/-- A newline after a run of `a` bytes is found at the run's length. -/
theorem goIndexSub_replicate_newline (tail : GoStr) :
    ∀ n : Nat, goIndexSub (List.replicate n 97 ++ 10 :: tail) [10] = some n := by
  intro n
  induction n with
  | zero =>
    simp [goIndexSub, List.isPrefixOf]
  | succ n ih =>
    rw [List.replicate_succ, List.cons_append]
    have hpre : ([10] : GoStr).isPrefixOf
        (97 :: (List.replicate n 97 ++ 10 :: tail)) = false := rfl
    simp [goIndexSub, hpre, ih]

/-- Symbolic one-step reduction of the scan loop when the first token
already triggers the early exit. -/
theorem metaScanLoopS_step_stop (eng : Engines) (maxBytes fuel : Nat)
    (stream line rest : GoStr) (st : MetaScanState)
    (hs : scanNext maxBytes stream = .token line rest)
    (hc : ((metaScanLine eng st line).allFound
      || decide ((metaScanLine eng st line).bytesRead > maxScan)) = true) :
    metaScanLoopS eng maxBytes (fuel + 1) stream st
      = (metaScanLine eng st line, rest) := by
  simp [metaScanLoopS, hs, hc]

/-- C9: the claim says scanning continues until all five fields are found
or the 100000-byte budget is exhausted.  On a trigger-free body of
50001 + 1 + 6 bytes — well under 100000, with no field ever found — the
loop stops after the first line (`bytesRead = 50001 > maxScan = 50000`),
leaving the second line unread. -/
theorem C9_budget_counterexample :
    (extractMetaTags engNone streamA 100000).2 = gs "<next>" ∧
    (extractMetaTags engNone streamA 100000).1.allFound = false ∧
    (extractMetaTags engNone streamA 100000).1.bytesRead = 50001 ∧
    streamA.length ≤ 100000 := by
  have h1 : lineA.length = 50001 := by
    simp only [lineA, List.length_replicate]
  have h6 : (gs "<next>").length = 6 := by decide
  have hlen : streamA.length = 50008 := by
    have hsA : streamA = lineA ++ 10 :: gs "<next>" := rfl
    rw [hsA, List.length_append, List.length_cons, h1, h6]
  have hne : (streamA == ([] : GoStr)) = false := by
    rw [beq_eq_false_iff_ne]
    intro h
    rw [h] at hlen
    simp at hlen
  have hnl : gs "\n" = [10] := by decide
  have hwin : max 100000 4096 = 100000 := by decide
  have htakeAll : streamA.take 100000 = streamA :=
    List.take_of_length_le (by omega)
  have hgidx : goIndexSub (streamA.take (max 100000 4096)) (gs "\n") = some 50001 := by
    rw [hwin, htakeAll, hnl]
    have : streamA = List.replicate 50001 97 ++ 10 :: gs "<next>" := rfl
    rw [this]
    exact goIndexSub_replicate_newline (gs "<next>") 50001
  have htake1 : streamA.take 50001 = lineA := by
    have hsA : streamA = lineA ++ (10 :: gs "<next>") := rfl
    rw [hsA]
    exact List.take_left' h1
  have hdropCR : dropCR lineA = lineA := by
    have hlast : lineA.getLast? = some 97 := by
      rw [show lineA = List.replicate 50000 97 ++ [97] by
        rw [lineA, ← List.replicate_succ']]
      exact List.getLast?_concat _
    unfold dropCR
    rw [hlast]
    rfl
  have hdrop : streamA.drop (50001 + 1) = gs "<next>" := by
    have hsp : streamA = (lineA ++ [10]) ++ gs "<next>" := by
      rw [List.append_assoc]
      rfl
    have hdl : ((lineA ++ [10]) ++ gs "<next>").drop (lineA ++ [10]).length
        = gs "<next>" := List.drop_left _ _
    have hlen2 : (lineA ++ [10]).length = 50001 + 1 := by
      rw [List.length_append, h1]
      rfl
    rw [hlen2] at hdl
    rw [hsp]
    exact hdl
  have hnnil : streamA ≠ [] := by
    intro h
    rw [h] at hlen
    simp at hlen
  have hscan : scanNext 100000 streamA = .token lineA (gs "<next>") := by
    rw [scanNext_eq_token 100000 streamA 50001 hnnil hgidx, htake1, hdropCR, hdrop]
  have hbytes : (metaScanLine engNone metaScanInit lineA).bytesRead = 50001 := by
    rw [metaScanLine_bytesRead, h1]
    rfl
  have hall : (metaScanLine engNone metaScanInit lineA).allFound = false := by
    rw [metaScanLine_engNone metaScanInit lineA]
    rfl
  have hgt : (metaScanLine engNone metaScanInit lineA).bytesRead > maxScan := by
    rw [hbytes]
    decide
  have hcond : ((metaScanLine engNone metaScanInit lineA).allFound
      || decide ((metaScanLine engNone metaScanInit lineA).bytesRead > maxScan)) = true := by
    rw [hall, decide_eq_true hgt]
    rfl
  have hloop : extractMetaTags engNone streamA 100000
      = (metaScanLine engNone metaScanInit lineA, gs "<next>") := by
    rw [extractMetaTags]
    exact metaScanLoopS_step_stop engNone 100000 streamA.length streamA lineA
      (gs "<next>") metaScanInit hscan hcond
  refine ⟨by rw [hloop], by rw [hloop]; exact hall, by rw [hloop]; exact hbytes, by omega⟩

/-- A missed lookup means every entry's key differs from the looked-up
key. -/
theorem lookup_none_keys {β : Type} (k : GoStr) :
    ∀ (l : List (GoStr × β)), l.lookup k = none → ∀ p ∈ l, (p.1 == k) = false := by
  intro l
  induction l with
  | nil =>
    intro _ p hp
    simp at hp
  | cons a t ih =>
    intro h p hp
    cases hka : k == a.1 with
    | true => simp [List.lookup, hka] at h
    | false =>
      have ht : t.lookup k = none := by simpa [List.lookup, hka] using h
      have ha1 : (a.1 == k) = false := by
        rw [beq_eq_false_iff_ne] at hka ⊢
        exact fun hh => hka hh.symm
      rcases List.mem_cons.mp hp with rfl | hpt
      · exact ha1
      · exact ih ht p hpt

/-- Rewriting the waiter list of key `k` does not touch a registration list
with no entry for `k`. -/
theorem replace_map_id (k : GoStr) (ws : List Nat) :
    ∀ (l : List (GoStr × List Nat)), l.lookup k = none →
      l.map (fun p => if p.1 == k then (p.1, ws) else p) = l := by
  intro l
  induction l with
  | nil => intro _; rfl
  | cons a t ih =>
    intro h
    cases hka : k == a.1 with
    | true => simp [List.lookup, hka] at h
    | false =>
      have ht : t.lookup k = none := by simpa [List.lookup, hka] using h
      have ha1 : (a.1 == k) = false := by
        rw [beq_eq_false_iff_ne] at hka ⊢
        exact fun hh => hka hh.symm
      simp only [List.map_cons, ha1, Bool.false_eq_true, if_false, ih ht]

/-- Deregistering key `k` does not touch a registration list with no entry
for `k`. -/
theorem filter_ne_id (k : GoStr) :
    ∀ (l : List (GoStr × List Nat)), l.lookup k = none →
      l.filter (fun p => !(p.1 == k)) = l := by
  intro l
  induction l with
  | nil => intro _; rfl
  | cons a t ih =>
    intro h
    cases hka : k == a.1 with
    | true => simp [List.lookup, hka] at h
    | false =>
      have ht : t.lookup k = none := by simpa [List.lookup, hka] using h
      have ha1 : (a.1 == k) = false := by
        rw [beq_eq_false_iff_ne] at hka ⊢
        exact fun hh => hka hh.symm
      simp [List.filter_cons, ha1, ih ht]

/-- Every caller arriving while a call for `k` is registered joins that
call's waiter list; no new fetch starts and no other entry changes. -/
theorem flight_arrive_run {α : Type} (k : GoStr) (fl0 : List (GoStr × List Nat))
    (hk : fl0.lookup k = none) (fe : List GoStr) (de : List (Nat × α)) :
    ∀ (cs ws : List Nat),
      cs.foldl (fun (t : FlightSys α) c => t.arrive c k)
          ⟨(k, ws) :: fl0, fe, de⟩
        = ⟨(k, ws ++ cs) :: fl0, fe, de⟩ := by
  intro cs
  induction cs with
  | nil =>
    intro ws
    simp
  | cons c cs2 ih =>
    intro ws
    rw [List.foldl_cons]
    have harr : FlightSys.arrive ⟨(k, ws) :: fl0, fe, de⟩ c k
        = ⟨(k, ws ++ [c]) :: fl0, fe, de⟩ := by
      unfold FlightSys.arrive
      simp only [List.lookup, beq_self_eq_true]
      simp only [List.map_cons, beq_self_eq_true, if_true, replace_map_id k (ws ++ [c]) fl0 hk]
    rw [harr, ih (ws ++ [c])]
    simp

/-- C2: from a state with no in-flight call for the uncached key `k`, any
number of callers entering `Do` concurrently starts exactly one outbound
fetch: the first caller registers the single in-flight call and every later
caller joins its waiter list (exactly one registration for `k` exists), and
when the shared call completes, each of the callers is delivered the
identical result and the registration is cleared. -/
theorem C2_singleflight_dedup {α : Type} (s : FlightSys α) (k : GoStr)
    (cs : List Nat) (r : α)
    (hmiss : s.flights.lookup k = none) (hne : cs ≠ []) :
    (cs.foldl (fun t c => t.arrive c k) s).fetches = k :: s.fetches ∧
    (cs.foldl (fun t c => t.arrive c k) s).flights.lookup k = some cs ∧
    ((cs.foldl (fun t c => t.arrive c k) s).flights.filter
        (fun p => p.1 == k)).length = 1 ∧
    ((cs.foldl (fun t c => t.arrive c k) s).complete k r).delivered
      = cs.map (fun c => (c, r)) ++ s.delivered ∧
    ((cs.foldl (fun t c => t.arrive c k) s).complete k r).flights.lookup k
      = none := by
  obtain ⟨c0, cs2, rfl⟩ := List.exists_cons_of_ne_nil hne
  have h1 : FlightSys.arrive s c0 k
      = ⟨(k, [c0]) :: s.flights, k :: s.fetches, s.delivered⟩ := by
    unfold FlightSys.arrive
    rw [hmiss]
  have hrun : (c0 :: cs2).foldl (fun (t : FlightSys α) c => t.arrive c k) s
      = ⟨(k, c0 :: cs2) :: s.flights, k :: s.fetches, s.delivered⟩ := by
    rw [List.foldl_cons, h1, flight_arrive_run k s.flights hmiss _ _ cs2 [c0]]
    simp
  have hcomp : (⟨(k, c0 :: cs2) :: s.flights, k :: s.fetches, s.delivered⟩
        : FlightSys α).complete k r
      = ⟨s.flights.filter (fun p => !(p.1 == k)), k :: s.fetches,
         (c0 :: cs2).map (fun c => (c, r)) ++ s.delivered⟩ := by
    unfold FlightSys.complete
    simp only [List.lookup, beq_self_eq_true]
    simp only [List.filter_cons, beq_self_eq_true, Bool.not_true,
      Bool.false_eq_true, if_false]
  refine ⟨by rw [hrun], ?_, ?_, ?_, ?_⟩
  · rw [hrun]
    simp [List.lookup]
  · rw [hrun]
    have hall := lookup_none_keys k s.flights hmiss
    have hnil : s.flights.filter (fun p => p.1 == k) = [] := by
      apply List.filter_eq_nil_iff.mpr
      intro p hp
      simp [hall p hp]
    simp [List.filter_cons, hnil]
  · rw [hrun, hcomp]
  · rw [hrun, hcomp]
    show (s.flights.filter (fun p => !(p.1 == k))).lookup k = none
    rw [filter_ne_id k s.flights hmiss]
    exact hmiss

/-- C2 at a concrete input: three concurrent callers for one key produce a
single fetch and all three receive the same result. -/
theorem C2_singleflight_dedup_witness :
    ((FlightSys.idle Nat).flights.lookup (gs "http://a.test") = none) ∧
    (([1, 2, 3] : List Nat) ≠ []) ∧
    (([1, 2, 3].foldl (fun t c => t.arrive c (gs "http://a.test"))
        (FlightSys.idle Nat)).fetches
      = gs "http://a.test" :: (FlightSys.idle Nat).fetches) ∧
    (([1, 2, 3].foldl (fun t c => t.arrive c (gs "http://a.test"))
        (FlightSys.idle Nat)).flights.lookup (gs "http://a.test")
      = some [1, 2, 3]) ∧
    ((([1, 2, 3].foldl (fun t c => t.arrive c (gs "http://a.test"))
        (FlightSys.idle Nat)).complete (gs "http://a.test") 7).delivered
      = [1, 2, 3].map (fun c => (c, 7)) ++ (FlightSys.idle Nat).delivered) := by
  have h := C2_singleflight_dedup (FlightSys.idle Nat) (gs "http://a.test")
    [1, 2, 3] 7 (by decide) (by decide)
  exact ⟨by decide, by decide, h.1, h.2.1, h.2.2.2.1⟩

end LinkPreview
